import Mathlib

/-!
A caching HTTP proxy: the cache store, the message codec and the connection handler.

Shallow embedding of `src/proxy.cpp` (class `ProxyServer`).

Modelling conventions.

* `std::string` is a list of characters (`CppString`); `string::npos` is `none`.
* `std::list<string> lruList` is a list of nodes, front first.  Each node carries a
  node identity (a natural number, never reused) next to its key, because the mapping
  stores `list<string>::iterator`s: an iterator is the identity of a node, `erase(it)`
  removes exactly that node, and iterators to other nodes stay valid.
* `std::unordered_map` is an association list; iteration order is never observed.
* `chrono::steady_clock::now()` is an explicit argument, in clock ticks (nanoseconds);
  every call of `checkValidity` reads the clock once.
* Socket calls are answered by finite scripts carried in the `World`; when a script is
  exhausted the peer is gone (`recv` returns 0, `send` and `connect` fail).
-/

namespace ProxyServer

/-- A `std::string`: a sequence of `char`s. -/
abbrev CppString := List Char

/-! ## Cache store: data -/

/-- Ticks of `chrono::steady_clock` per second (the clock counts nanoseconds). -/
def ticksPerSecond : Int := 1000000000

/-- The struct `cacheContainer`: response bytes, insertion time point, max-age in seconds. -/
structure cacheContainer where
  resp : CppString
  req_timestamp : Int
  maxAge : Int
deriving DecidableEq, Repr, Inhabited

/-- Seconds elapsed as `duration_cast<chrono::seconds>(now - req_timestamp).count()`
(the cast truncates toward zero). -/
def elapsedSeconds (now req_timestamp : Int) : Int :=
  Int.tdiv (now - req_timestamp) ticksPerSecond

/-- The method `cacheContainer::checkValidity`, with the clock reading made explicit. -/
def cacheContainer.checkValidity (c : cacheContainer) (now : Int) : Bool :=
  decide (elapsedSeconds now c.req_timestamp < c.maxAge)

/-- A node of `lruList`: its identity and the key it stores. -/
structure LruNode where
  id : Nat
  key : CppString
deriving DecidableEq, Repr, Inhabited

/-- A value of `cacheMapping`: the pair of a container and an iterator into `lruList`. -/
structure MapValue where
  first : cacheContainer
  second : Nat
deriving DecidableEq, Repr, Inhabited

/-- The cache-related members of `ProxyServer`. `nextNode` is the identity the next
allocated list node receives. -/
structure Cache where
  lruList : List LruNode
  cacheMapping : List (CppString × MapValue)
  defCacheTime : Int
  nextNode : Nat
deriving DecidableEq, Repr

/-- The member `cacheMaxSize`, initialised to 4 and never assigned. -/
def cacheMaxSize : Nat := 4

/-- The cache of a freshly constructed `ProxyServer(port, cacheTime)`. -/
def Cache.empty (cacheTime : Int) : Cache :=
  { lruList := [], cacheMapping := [], defCacheTime := cacheTime, nextNode := 0 }

/-! ## Cache store: container primitives -/

/-- The call `cacheMapping.find(key)`: the value stored under `key`, if any. -/
def mapFind (m : List (CppString × MapValue)) (key : CppString) : Option MapValue :=
  match m with
  | [] => none
  | (k, v) :: rest => if k = key then some v else mapFind rest key

/-- The call `cacheMapping.erase(key)`: removes the entry of `key`, if any. -/
def mapErase (m : List (CppString × MapValue)) (key : CppString) :
    List (CppString × MapValue) :=
  m.filter (fun e => decide (e.1 ≠ key))

/-- The assignment `cacheMapping[key] = v`: replaces the value of an existing entry,
creates the entry otherwise. -/
def mapAssign (m : List (CppString × MapValue)) (key : CppString) (v : MapValue) :
    List (CppString × MapValue) :=
  match m with
  | [] => [(key, v)]
  | (k, w) :: rest => if k = key then (k, v) :: rest else (k, w) :: mapAssign rest key v

/-- The call `lruList.erase(it)`: removes the node the iterator designates. -/
def listErase (l : List LruNode) (it : Nat) : List LruNode :=
  l.filter (fun n => decide (n.id ≠ it))

/-- The keys of the mapping. -/
def Cache.keys (s : Cache) : List CppString := s.cacheMapping.map Prod.fst

/-- The keys of the recency list, most recent first. -/
def Cache.lruKeys (s : Cache) : List CppString := s.lruList.map LruNode.key

/-! ## Cache store: operations -/

/-- The method `getCacheResponse(cacheKey, response)`. `now1` and `now2` are the clock
readings of the first and of the second `checkValidity` call (the second call happens
only when the first did not report a valid entry). Returns the `bool` result together
with the value left in `response` (`none` when `response` is not assigned). -/
def getCacheResponse (s : Cache) (cacheKey : CppString) (now1 now2 : Int) :
    Cache × Option CppString :=
  match mapFind s.cacheMapping cacheKey with
  | none => (s, none)
  | some it =>
    if it.first.checkValidity now1 then
      ({ s with
          lruList := { id := s.nextNode, key := cacheKey } :: listErase s.lruList it.second
          cacheMapping := mapAssign s.cacheMapping cacheKey
            { first := it.first, second := s.nextNode }
          nextNode := s.nextNode + 1 },
        some it.first.resp)
    else if !it.first.checkValidity now2 then
      ({ s with
          lruList := listErase s.lruList it.second
          cacheMapping := mapErase s.cacheMapping cacheKey },
        none)
    else (s, none)

/-- The method `cacheResponse(cacheKey, response, maxAge)`, with the clock reading `now`
made explicit. -/
def cacheResponse (s : Cache) (cacheKey response : CppString) (maxAge now : Int) : Cache :=
  let entry : cacheContainer :=
    { resp := response, req_timestamp := now,
      maxAge := if maxAge > 0 then maxAge else s.defCacheTime }
  let lruList := { id := s.nextNode, key := cacheKey } :: s.lruList
  let cacheMapping := mapAssign s.cacheMapping cacheKey
    { first := entry, second := s.nextNode }
  if cacheMapping.length > cacheMaxSize then
    match lruList.getLast? with
    | some lruNode =>
      { s with
          lruList := lruList.dropLast
          cacheMapping := mapErase cacheMapping lruNode.key
          nextNode := s.nextNode + 1 }
    | none =>
      { s with lruList := lruList, cacheMapping := cacheMapping, nextNode := s.nextNode + 1 }
  else
    { s with lruList := lruList, cacheMapping := cacheMapping, nextNode := s.nextNode + 1 }

/-- A call on the cache store. -/
inductive CacheOp where
  | insert (cacheKey response : CppString) (maxAge now : Int)
  | lookup (cacheKey : CppString) (now1 now2 : Int)
deriving DecidableEq, Repr

/-- One call applied to a store. -/
def CacheOp.apply (s : Cache) : CacheOp → Cache
  | .insert k r a now => cacheResponse s k r a now
  | .lookup k now1 now2 => (getCacheResponse s k now1 now2).1

/-- A sequence of calls applied to a store, in order. -/
def runOps (s : Cache) (ops : List CacheOp) : Cache := ops.foldl CacheOp.apply s

/-- The key a call is about. -/
def CacheOp.key : CacheOp → CppString
  | .insert k _ _ _ => k
  | .lookup k _ _ => k

/-- Whether a call is a `cacheResponse` call. -/
def CacheOp.isInsert : CacheOp → Bool
  | .insert _ _ _ _ => true
  | .lookup _ _ _ => false

/-! ## String primitives of the message codec -/

/-- The successive results of `getline(stream, line)` on an `istringstream` over the
given string: each call removes the characters up to and including the next line feed,
and fails once no character is left. -/
def splitLines : CppString → List CppString
  | [] => []
  | c :: cs =>
    if c = '\n' then [] :: splitLines cs
    else match splitLines cs with
      | [] => [[c]]
      | l :: ls => (c :: l) :: ls

/-- The call `hay.find(needle)`: the first position at which `needle` occurs,
`none` standing for `string::npos`. -/
def find : CppString → CppString → Option Nat
  | [], needle => if needle = [] then some 0 else none
  | c :: cs, needle =>
    if needle.isPrefixOf (c :: cs) then some 0 else (find cs needle).map (· + 1)

/-- The test `hay.find(needle) == 0`. -/
def startsWith (hay needle : CppString) : Bool := find hay needle == some 0

/-- The test `hay.find(needle) != string::npos`. -/
def contains (hay needle : CppString) : Bool := (find hay needle).isSome

/-- The call `s.pop_back()` guarded by `!s.empty() && s.back() == '\r'`. -/
def popCarriageReturn (s : CppString) : CppString :=
  if s.getLast? = some '\r' then s.dropLast else s

/-- The C function `isspace` in the "C" locale. -/
def isspace (c : Char) : Bool :=
  c = ' ' || c = '\t' || c = '\n' || c = '\x0b' || c = '\x0c' || c = '\r'

/-- The C function `isdigit`. -/
def isdigit (c : Char) : Bool := decide ('0' ≤ c) && decide (c ≤ '9')

/-- One formatted extraction `stream >> str`: skips leading white space, then takes the
characters up to the next white space. Returns the token and the rest of the stream; the
token is empty when the extraction fails. -/
def extractToken (s : CppString) : CppString × CppString :=
  let s1 := s.dropWhile isspace
  (s1.takeWhile (fun c => !isspace c), s1.dropWhile (fun c => !isspace c))

/-- The value of a string of decimal digits. -/
def digitsValue (ds : List Char) : Nat :=
  ds.foldl (fun acc d => 10 * acc + (d.toNat - '0'.toNat)) 0

/-- What can go wrong inside `parseHttpResponse`: the two exceptions of `std::stoi`, and
the access `line.back()` on an empty string. -/
inductive CodecFailure where
  | invalid_argument
  | out_of_range
  | backOfEmptyString
deriving DecidableEq, Repr

deriving instance DecidableEq for Except

/-- The call `std::stoi(s)`: optional white space, optional sign, decimal digits; anything
after the digits is ignored. Throws `invalid_argument` when there is no digit and
`out_of_range` when the value does not fit an `int`. -/
def stoi (s : CppString) : Except CodecFailure Int :=
  let s1 := s.dropWhile isspace
  let signed : Bool × CppString :=
    match s1 with
    | '-' :: t => (true, t)
    | '+' :: t => (false, t)
    | _ => (false, s1)
  let ds := signed.2.takeWhile isdigit
  if ds = [] then .error .invalid_argument
  else
    let v : Int := if signed.1 then -(digitsValue ds : Int) else (digitsValue ds : Int)
    if v < -2147483648 ∨ 2147483647 < v then .error .out_of_range else .ok v

/-! ## Message codec -/

/-- The struct `HttpReq`. -/
structure HttpReq where
  method : CppString := []
  url : CppString := []
  host : CppString := []
  version : CppString := []
  body : CppString := []
  headers : List CppString := []
  isValid : Bool := false
  isCacheable : Bool := false
deriving DecidableEq, Repr

/-- The struct `HttpResp`. -/
structure HttpResp where
  statusLine : CppString := []
  body : CppString := []
  fullResp : CppString := []
  headers : List CppString := []
  maxAge : Int := 0
  isCacheable : Bool := false
deriving DecidableEq, Repr

/-- The body loop of both parsers: every remaining line followed by a line feed. -/
def readBody (body : CppString) : List CppString → CppString
  | [] => body
  | bodyLine :: rest => readBody (body ++ bodyLine ++ ['\n']) rest

/-- The effect of one header line on the request (body of the header loop of
`parseHttpReq`). -/
def reqHeaderStep (req : HttpReq) (line : CppString) : HttpReq :=
  let req := { req with headers := req.headers ++ [line] }
  let req :=
    if startsWith line "Host:".toList then
      let host := line.drop 5
      let host := if host.head? = some ' ' then host.drop 1 else host
      { req with host := popCarriageReturn host }
    else req
  if startsWith line "Cache-Control".toList && contains line "no-cache".toList then
    { req with isCacheable := false }
  else req

/-- The header loop of `parseHttpReq`, followed by the body loop. The line that ends the
header loop is consumed. -/
def parseReqHeaders (req : HttpReq) : List CppString → HttpReq
  | [] => req
  | line :: rest =>
    if line ≠ ['\r'] ∧ line ≠ [] then parseReqHeaders (reqHeaderStep req line) rest
    else { req with body := readBody req.body rest }

/-- The method `parseHttpReq`. -/
def parseHttpReq (request : CppString) : HttpReq :=
  match splitLines request with
  | [] => {}
  | line :: rest =>
    let t1 := extractToken line
    let t2 := extractToken t1.2
    let t3 := extractToken t2.2
    let req : HttpReq :=
      { method := t1.1, url := t2.1, version := popCarriageReturn t3.1,
        isValid := !t1.1.isEmpty && !t2.1.isEmpty,
        isCacheable := decide (t1.1 = "GET".toList) }
    parseReqHeaders req rest

/-- The effect of one header line on the response (body of the header loop of
`parseHttpResponse`); fails when `stoi` throws. -/
def respHeaderStep (resp : HttpResp) (line : CppString) : Except CodecFailure HttpResp :=
  let resp := { resp with headers := resp.headers ++ [line] }
  let resp :=
    if startsWith line "Cache-control:".toList
        && (contains line "no-cache".toList || contains line "no-store".toList) then
      { resp with isCacheable := false }
    else resp
  let withAge : Except CodecFailure HttpResp :=
    match find line "max-age=".toList with
    | some maxAgeIdx =>
      let age := line.drop (maxAgeIdx + 8)
      let age :=
        match find age [','] with
        | some commaIdx => age.take commaIdx
        | none => age
      match stoi age with
      | .ok n => .ok { resp with maxAge := n }
      | .error e => .error e
    | none => .ok resp
  match withAge with
  | .ok resp =>
    if startsWith line "Expires:".toList then .ok { resp with isCacheable := true }
    else .ok resp
  | .error e => .error e

/-- The header loop of `parseHttpResponse`, followed by the body loop. -/
def parseRespHeaders (resp : HttpResp) : List CppString → Except CodecFailure HttpResp
  | [] => .ok resp
  | line :: rest =>
    if line ≠ ['\r'] ∧ line ≠ [] then
      match respHeaderStep resp line with
      | .ok resp => parseRespHeaders resp rest
      | .error e => .error e
    else .ok { resp with body := readBody resp.body rest }

/-- The method `parseHttpResponse`. It fails when `stoi` throws and when `line.back()`
is evaluated on an empty first line. -/
def parseHttpResponse (response : CppString) : Except CodecFailure HttpResp :=
  let parsed : Except CodecFailure HttpResp :=
    match splitLines response with
    | [] => .ok {}
    | line :: rest =>
      if line = [] then .error .backOfEmptyString
      else
        let line1 := if line.getLast? = some '\r' then line.dropLast else line
        parseRespHeaders
          { statusLine := line, isCacheable := contains line1 "200 OK".toList } rest
  match parsed with
  | .ok resp => .ok { resp with fullResp := response }
  | .error e => .error e

/-- The method `genCacheKey`. -/
def genCacheKey (req : HttpReq) : CppString :=
  req.method ++ ":".toList ++ req.host ++ req.url

/-! ## Connection handler -/

/-- The result of one `recv` call: `SOCKET_ERROR` with the code `WSAGetLastError` then
reports, or the bytes received (`recv` returns their number; no byte means the peer has
closed the connection). -/
inductive RecvResult where
  | socketError (wsaError : Int)
  | received (data : CppString)
deriving DecidableEq, Repr

/-- The result of one `send` call: `SOCKET_ERROR`, or the number of bytes taken. -/
inductive SendResult where
  | socketError
  | sent (n : Nat)
deriving DecidableEq, Repr

/-- The behaviour of one origin connection that `connectToTargetServer` has opened: the
result of the `send` of the request, and the results of the successive `recv` calls. -/
structure Target where
  sendResult : SendResult
  recvs : List RecvResult
deriving DecidableEq, Repr

/-- What the handler does on its sockets, in order. -/
inductive Event where
  | clientSend (buffer : CppString)
  | connectTarget (host : CppString)
  | targetSend (buffer : CppString)
  | closeTarget
  | closeClient
deriving DecidableEq, Repr

/-- The environment of one handler run together with the shared cache.
`connects` answers the successive `connectToTargetServer` calls (`none` for
`INVALID_SOCKET`), `clientSends` the successive `send` calls on the client socket,
`clock` the successive readings of the steady clock (`clockReads` counts the readings
drawn so far), `indeterminate` is the value read from the uninitialised local `maxAge`. -/
structure World where
  cache : Cache
  clock : Nat → Int
  clockReads : Nat
  connects : List (Option Target)
  clientSends : List SendResult
  indeterminate : Int
  trace : List Event

/-- How the loop body of `handleClient` is left after a complete request. -/
inductive Control where
  | breakLoop
  | continueLoop
  | uncaught (e : CodecFailure)
deriving DecidableEq, Repr

/-- How `handleClient` ends: it returns, or an exception leaves it uncaught. -/
inductive HandlerExit where
  | returned
  | terminated (e : CodecFailure)
deriving DecidableEq, Repr

/-- A `send` on the client socket whose result the handler ignores. -/
def World.sendClient (w : World) (buffer : CppString) : World :=
  { w with clientSends := w.clientSends.tail, trace := w.trace ++ [.clientSend buffer] }

/-- The call `getCacheResponse(cacheKey, cachedResp)` made by the handler; two clock
readings are drawn from the stream. -/
def World.lookup (w : World) (cacheKey : CppString) : World × Option CppString :=
  let r := getCacheResponse w.cache cacheKey (w.clock w.clockReads) (w.clock (w.clockReads + 1))
  ({ w with cache := r.1, clockReads := w.clockReads + 2 }, r.2)

/-- The call `cacheResponse(cacheKey, fullResp, maxAge)` made by the handler. -/
def World.insert (w : World) (cacheKey response : CppString) (maxAge : Int) : World :=
  { w with
      cache := cacheResponse w.cache cacheKey response maxAge (w.clock w.clockReads)
      clockReads := w.clockReads + 1 }

/-- The inner loop `while(totalSent < serverBytes)` that forwards one received chunk to
the client. Returns the flag `connectionClosed`, the unused send results and the sends
made. -/
def relayToClient (buffer : CppString) :
    List SendResult → Nat → Bool × List SendResult × List Event
  | [], totalSent =>
    if totalSent < buffer.length then (true, [], [.clientSend (buffer.drop totalSent)])
    else (false, [], [])
  | r :: rs, totalSent =>
    if totalSent < buffer.length then
      match r with
      | .socketError => (true, rs, [.clientSend (buffer.drop totalSent)])
      | .sent n =>
        let next := relayToClient buffer rs (totalSent + n)
        (next.1, next.2.1, .clientSend (buffer.drop totalSent) :: next.2.2)
    else (false, r :: rs, [])

/-- The relay loop of `handleClient` over the `recv` results of the origin. Returns
`fullResp`, the unused client send results and the trace. -/
def relayLoop :
    List RecvResult → CppString → List SendResult → List Event →
      CppString × List SendResult × List Event
  | [], fullResp, sends, trace => (fullResp, sends, trace)
  | .socketError _ :: _, fullResp, sends, trace => (fullResp, sends, trace)
  | .received data :: rest, fullResp, sends, trace =>
    if data.length = 0 then (fullResp, sends, trace)
    else
      let relayed := relayToClient data sends 0
      if relayed.1 then (fullResp ++ data, relayed.2.1, trace ++ relayed.2.2)
      else relayLoop rest (fullResp ++ data) relayed.2.1 (trace ++ relayed.2.2)

/-- The keep-alive decision at the end of the loop body of `handleClient`. -/
def keepAliveControl (req : HttpReq) : Control :=
  let keepAlive := req.headers.any
    (fun header => startsWith header "Connection:".toList && contains header "keep-alive".toList)
  if !keepAlive || decide (req.version = "HTTP/1.0".toList) then .breakLoop else .continueLoop

/-- The caching step of `handleClient` after the relay loop. -/
def cacheStep (w : World) (req : HttpReq) (cacheKey fullResp : CppString) : World × Control :=
  if req.isCacheable && !fullResp.isEmpty then
    match parseHttpResponse fullResp with
    | .error e => (w, .uncaught e)
    | .ok resp =>
      if resp.isCacheable then
        let maxAge := if resp.maxAge > 0 then w.indeterminate else w.cache.defCacheTime
        (w.insert cacheKey fullResp maxAge, keepAliveControl req)
      else (w, keepAliveControl req)
  else (w, keepAliveControl req)

/-- The forwarding branch of `handleClient` (the `else` of the cache test). -/
def forward (w : World) (req : HttpReq) (cacheKey reqData : CppString) : World × Control :=
  let w1 : World :=
    { w with connects := w.connects.tail, trace := w.trace ++ [.connectTarget req.host] }
  match w.connects.head? with
  | some (some target) =>
    let w2 : World := { w1 with trace := w1.trace ++ [.targetSend reqData] }
    match target.sendResult with
    | .socketError => ({ w2 with trace := w2.trace ++ [Event.closeTarget] }, .breakLoop)
    | .sent _ =>
      let relayed := relayLoop target.recvs [] w2.clientSends w2.trace
      let w3 : World := { w2 with clientSends := relayed.2.1, trace := relayed.2.2 ++ [.closeTarget] }
      cacheStep w3 req cacheKey relayed.1
  | _ => (w1.sendClient "HTTP/1.1 502 Bad gateway \r\n\r\n".toList, .breakLoop)

/-- The body of `if(reqData.find("\r\n\r\n") != string::npos)` in `handleClient`: one
complete request is parsed and answered. -/
def processRequest (w : World) (reqData : CppString) : World × Control :=
  let req := parseHttpReq reqData
  if req.method = "CONNECT".toList then
    (w.sendClient "HTTP/1.1 405 Method Not Allowed\r\n\r\n".toList, .breakLoop)
  else if !req.isValid then
    (w.sendClient "HTTP/1.1 404 Bad Request\r\n\r\n".toList, .breakLoop)
  else
    let cacheKey := genCacheKey req
    let looked : World × Option CppString :=
      if req.isCacheable then w.lookup cacheKey else (w, none)
    match looked.2 with
    | some cachedResp => (looked.1.sendClient cachedResp, keepAliveControl req)
    | none => forward looked.1 req cacheKey reqData

/-- The outer loop `while(true)` of `handleClient` over the `recv` results of the
client; `reqData` is the request accumulated so far. -/
def clientLoop : List RecvResult → CppString → World → World × HandlerExit
  | [], _, w => (w, .returned)
  | .socketError _ :: _, _, w => (w, .returned)
  | .received data :: rest, reqData, w =>
    if data.length = 0 then (w, .returned)
    else if contains (reqData ++ data) "\r\n\r\n".toList then
      match processRequest w (reqData ++ data) with
      | (w1, .breakLoop) => (w1, .returned)
      | (w1, .continueLoop) => clientLoop rest [] w1
      | (w1, .uncaught e) => (w1, .terminated e)
    else clientLoop rest (reqData ++ data) w

/-- The method `handleClient`: the loop, then `closesocket(clientSocket)` unless an
exception left the loop. -/
def handleClient (clientRecvs : List RecvResult) (w : World) : World × HandlerExit :=
  match clientLoop clientRecvs [] w with
  | (w1, .returned) => ({ w1 with trace := w1.trace ++ [.closeClient] }, .returned)
  | (w1, .terminated e) => (w1, .terminated e)

/-! ## Invariant and worked examples -/

/-- A store in which the recency list and the mapping describe the same keys: node
identities and keys of the list are pairwise distinct, every mapping entry designates a
list node carrying its key, every list node has a mapping entry, and the list holds at
most `cacheMaxSize` nodes. -/
structure Cache.Clean (s : Cache) : Prop where
  ids_nodup : (s.lruList.map LruNode.id).Nodup
  ids_lt : ∀ n ∈ s.lruList, n.id < s.nextNode
  lru_nodup : s.lruKeys.Nodup
  keys_nodup : s.keys.Nodup
  find_mem : ∀ k v, mapFind s.cacheMapping k = some v →
    ({ id := v.second, key := k } : LruNode) ∈ s.lruList
  mem_keys : ∀ n ∈ s.lruList, n.key ∈ s.keys
  size_le : s.lruList.length ≤ cacheMaxSize

/-- Every insert of the run is made while its key is absent from the mapping. -/
def insertsAbsentKeys : Cache → List CacheOp → Prop
  | _, [] => True
  | s, op :: ops =>
    (op.isInsert = true → op.key ∉ s.keys) ∧ insertsAbsentKeys (CacheOp.apply s op) ops

/-- The fingerprint `A`. -/
def keyA : CppString := "A".toList
/-- The fingerprint `B`. -/
def keyB : CppString := "B".toList
/-- The fingerprint `C`. -/
def keyC : CppString := "C".toList
/-- The fingerprint `D`. -/
def keyD : CppString := "D".toList
/-- The fingerprint `E`. -/
def keyE : CppString := "E".toList
/-- The fingerprint `F`. -/
def keyF : CppString := "F".toList

/-- An insert of the given key at clock reading 0 with response `x` and no declared
max-age, so that the entry gets the default TTL. -/
def insertAt0 (k : CppString) : CacheOp := .insert k "x".toList 0 0

/-- An insert of the given key at clock reading 0 with response `x` and a declared
max-age of 300 seconds. -/
def insertTtl300 (k : CppString) : CacheOp := .insert k "x".toList 300 0

/-- The store after `A`, `B`, `C`, `D` have been inserted into the empty store, each with
a TTL of 300 seconds. -/
def storeABCD : Cache :=
  runOps (Cache.empty 300)
    [insertTtl300 keyA, insertTtl300 keyB, insertTtl300 keyC, insertTtl300 keyD]

/-- The store after `A` has been inserted twice and then `B`, `C`, `D`, `E` once each.
The second insert of `A` pushes a second list node for `A` and leaves the first one in
the list; the insert of `E` pops that first node and erases `A` from the mapping. -/
def storeAABCDE : Cache :=
  runOps (Cache.empty 300)
    [insertAt0 keyA, insertAt0 keyA, insertAt0 keyB, insertAt0 keyC, insertAt0 keyD,
     insertAt0 keyE]

/-- The cacheability flag `parseHttpResponse` computes for a response, `none` when the
parse fails. -/
def classify (response : CppString) : Option Bool :=
  match parseHttpResponse response with
  | .ok resp => some resp.isCacheable
  | .error _ => none

/-- A world at the start of a handler run: the given cache, origin and client-send
scripts, every clock reading equal to `now`, nothing done yet. -/
def World.initial (cache : Cache) (now : Int) (connects : List (Option Target))
    (clientSends : List SendResult) : World :=
  { cache := cache, clock := fun _ => now, clockReads := 0, connects := connects,
    clientSends := clientSends, indeterminate := 0, trace := [] }

/-- A cacheable request. -/
def getRequest : CppString :=
  "GET /index.html HTTP/1.1\r\nHost: example.com\r\n\r\n".toList

/-- The fingerprint of `getRequest`. -/
def getRequestKey : CppString := "GET:example.com/index.html".toList

/-- An origin response whose `max-age` value is not a number. -/
def badAgeResponse : CppString :=
  "HTTP/1.1 200 OK\r\nCache-Control: max-age=abc\r\n\r\nhello".toList

/-- The head of an origin response that announces 1000 body bytes, with the first seven
of them. -/
def partialResponse : CppString :=
  "HTTP/1.1 200 OK\r\nContent-Length: 1000\r\n\r\npartial".toList

/-- The store in which a response for `getRequest` was cached at clock reading 0 with
the default TTL of 300 seconds. -/
def storeWithGetRequest : Cache :=
  cacheResponse (Cache.empty 300) getRequestKey "HTTP/1.1 200 OK\r\n\r\nold".toList 0 0

/-- A request for `/b` on the host `a.com`. -/
def requestToACom : CppString := "GET /b HTTP/1.1\r\nHost: a.com\r\n\r\n".toList

/-- A request for `m/b` on the host `a.co`. -/
def requestToACo : CppString := "GET m/b HTTP/1.1\r\nHost: a.co\r\n\r\n".toList

/-- The answer of the origin `a.com`. -/
def answerOfACom : CppString := "HTTP/1.1 200 OK\r\n\r\nfrom a.com".toList

/-- An origin response that declares a max-age of 60 seconds. -/
def maxAge60Response : CppString :=
  "HTTP/1.1 200 OK\r\nCache-Control: max-age=60\r\n\r\nhello".toList

/-- The max-age of the entry stored under `getRequestKey` after `getRequest` has been
answered by `maxAge60Response`, when the uninitialised local `maxAge` of the handler
holds the value `indeterminate`. -/
def storedMaxAge (indeterminate : Int) : Option Int :=
  (mapFind (handleClient [.received getRequest]
    { World.initial (Cache.empty 300) 0
        [some { sendResult := .sent getRequest.length,
                recvs := [.received maxAge60Response, .received []] }]
        [.sent maxAge60Response.length] with
      indeterminate := indeterminate }).1.cache.cacheMapping getRequestKey).map
    (fun v => v.first.maxAge)

/-- A line at which the header loops of the parsers stop: the empty line or a lone
carriage return. -/
def isBlankLine (line : CppString) : Bool := decide (line = ['\r']) || decide (line = [])

/-- The header lines of a message: the lines after the first one, up to the first blank
line. -/
def headerLines (message : CppString) : List CppString :=
  (splitLines message).tail.takeWhile (fun line => !isBlankLine line)

/-- A request header line that begins with `Cache-Control` and contains `no-cache`. -/
def requestsNoCache (line : CppString) : Bool :=
  startsWith line "Cache-Control".toList && contains line "no-cache".toList

/-- A CONNECT request with a complete request line. -/
def connectRequest : CppString :=
  "CONNECT example.com:443 HTTP/1.1\r\nHost: example.com:443\r\n\r\n".toList

/-- A CONNECT request whose request line has no URL. -/
def connectRequestNoUrl : CppString := "CONNECT\r\n\r\n".toList

/-- A response header line that begins with `Cache-control:` and contains `no-cache` or
`no-store`. -/
def forbidsStorage (line : CppString) : Bool :=
  startsWith line "Cache-control:".toList
    && (contains line "no-cache".toList || contains line "no-store".toList)

/-- A response header line that begins with `Expires:`. -/
def isExpiresLine (line : CppString) : Bool := startsWith line "Expires:".toList

/-- The effect of one response header line on the cacheability flag, in the order of
the two tests in the header loop of `parseHttpResponse`. -/
def flagStep (flag : Bool) (line : CppString) : Bool :=
  if isExpiresLine line then true else if forbidsStorage line then false else flag

/-- A response with an `Expires:` line followed by a `Cache-control: no-cache` line. -/
def expiresThenNoCache : CppString :=
  ("HTTP/1.1 200 OK\r\nExpires: Thu, 01 Dec 1994 16:00:00 GMT\r\n"
    ++ "Cache-control: no-cache\r\n\r\n").toList

/-- The same response with the two header lines in the other order. -/
def noCacheThenExpires : CppString :=
  ("HTTP/1.1 200 OK\r\nCache-control: no-cache\r\n"
    ++ "Expires: Thu, 01 Dec 1994 16:00:00 GMT\r\n\r\n").toList

/-- An origin response that begins with a line feed, followed by an ordinary response. -/
def newlineFirstResponse : CppString := "\nHTTP/1.1 200 OK\r\n\r\nhello".toList

/-- The first line of a message: what the first `getline` delivers, the empty string
when it fails. -/
def firstLine (message : CppString) : CppString := (splitLines message).headD []

/-- A successful response without any caching header. -/
def plainOkResponse : CppString := "HTTP/1.1 200 OK\r\nServer: x\r\n\r\nhi".toList

/-- A response with another status and without any caching header. -/
def notFoundResponse : CppString := "HTTP/1.1 404 Not Found\r\nServer: x\r\n\r\n".toList

/-- Whether `schedule` is an interleaving of the call sequences `xs` and `ys` of two
handlers: every call of the schedule is the next call of one of the two, and both
sequences are used up. Every cache method holds the mutex from its first line to its
return, so the runs of concurrent handlers are the interleavings of their whole calls. -/
def isInterleaving : List CacheOp → List CacheOp → List CacheOp → Bool
  | xs, ys, [] => xs.isEmpty && ys.isEmpty
  | xs, ys, c :: schedule =>
    (match xs with
      | x :: xs1 => decide (x = c) && isInterleaving xs1 ys schedule
      | [] => false) ||
    (match ys with
      | y :: ys1 => decide (y = c) && isInterleaving xs ys1 schedule
      | [] => false)

/-- The cache calls of a handler that forwards requests for `A`, `B` and `C`: for each,
a lookup that misses, then the insert of the response. -/
def handlerOneCalls : List CacheOp :=
  [.lookup keyA 0 0, insertAt0 keyA, .lookup keyB 0 0, insertAt0 keyB,
   .lookup keyC 0 0, insertAt0 keyC]

/-- The cache calls of a second handler that forwards requests for `A`, `D` and `E`. -/
def handlerTwoCalls : List CacheOp :=
  [.lookup keyA 0 0, insertAt0 keyA, .lookup keyD 0 0, insertAt0 keyD,
   .lookup keyE 0 0, insertAt0 keyE]

/-- A schedule of the two handlers in which both look `A` up before either inserts it. -/
def raceOnA : List CacheOp :=
  [.lookup keyA 0 0, .lookup keyA 0 0, insertAt0 keyA, insertAt0 keyA,
   .lookup keyB 0 0, insertAt0 keyB, .lookup keyC 0 0, insertAt0 keyC,
   .lookup keyD 0 0, insertAt0 keyD, .lookup keyE 0 0, insertAt0 keyE]

/-! ## Lemmas on the container primitives -/

theorem mapFind_eq_none_iff (m : List (CppString × MapValue)) (key : CppString) :
    mapFind m key = none ↔ key ∉ m.map Prod.fst := by
  induction m with
  | nil => simp [mapFind]
  | cons e rest ih =>
    obtain ⟨k, v⟩ := e
    by_cases h : k = key
    · simp [mapFind, h]
    · have h2 : ¬ key = k := fun h3 => h h3.symm
      simp [mapFind, h, h2, ih]

theorem mapFind_mapAssign (m : List (CppString × MapValue)) (key : CppString) (v : MapValue)
    (k2 : CppString) :
    mapFind (mapAssign m key v) k2 = if k2 = key then some v else mapFind m k2 := by
  induction m with
  | nil =>
    by_cases h : k2 = key
    · subst h
      simp only [mapAssign, mapFind, if_true]
    · have h2 : ¬ key = k2 := fun h3 => h h3.symm
      simp only [mapAssign, mapFind, if_neg h, if_neg h2]
  | cons e rest ih =>
    obtain ⟨k, w⟩ := e
    by_cases hk : k = key
    · subst hk
      by_cases h : k2 = k
      · subst h
        simp only [mapAssign, mapFind, if_true]
      · have h2 : ¬ k = k2 := fun h3 => h h3.symm
        simp only [mapAssign, mapFind, if_true, if_neg h, if_neg h2]
    · by_cases h : k = k2
      · subst h
        simp only [mapAssign, mapFind, if_neg hk, if_true]
      · simp only [mapAssign, mapFind, if_neg hk, if_neg h, ih]

theorem mapFind_mapErase (m : List (CppString × MapValue)) (key k2 : CppString) :
    mapFind (mapErase m key) k2 = if k2 = key then none else mapFind m k2 := by
  induction m with
  | nil => simp [mapErase, mapFind]
  | cons e rest ih =>
    obtain ⟨k, w⟩ := e
    simp only [mapErase] at ih ⊢
    by_cases hk : k = key
    · subst hk
      rw [List.filter_cons_of_neg (by simp), ih]
      by_cases h : k2 = k
      · simp only [if_pos h]
      · have h2 : ¬ k = k2 := fun h3 => h h3.symm
        simp only [mapFind, if_neg h2]
    · rw [List.filter_cons_of_pos (by simpa using hk)]
      by_cases h : k = k2
      · subst h
        simp only [mapFind, if_true, if_neg hk]
      · simp only [mapFind, if_neg h, ih]

theorem keys_mapErase (m : List (CppString × MapValue)) (key : CppString) :
    (mapErase m key).map Prod.fst = (m.map Prod.fst).filter (fun k => decide (k ≠ key)) := by
  induction m with
  | nil => simp [mapErase]
  | cons e rest ih =>
    simp only [mapErase] at ih ⊢
    by_cases hk : e.1 = key
    · rw [List.filter_cons_of_neg (by simpa using hk), ih, List.map_cons,
        List.filter_cons_of_neg (by simpa using hk)]
    · rw [List.filter_cons_of_pos (by simpa using hk), List.map_cons, ih, List.map_cons,
        List.filter_cons_of_pos (by simpa using hk)]

theorem keys_mapAssign_of_mem (m : List (CppString × MapValue)) (key : CppString)
    (v : MapValue) (h : key ∈ m.map Prod.fst) :
    (mapAssign m key v).map Prod.fst = m.map Prod.fst := by
  induction m with
  | nil => simp at h
  | cons e rest ih =>
    obtain ⟨k, w⟩ := e
    by_cases hk : k = key
    · simp [mapAssign, hk]
    · have h2 : key ∈ rest.map Prod.fst := by
        simp only [List.map_cons, List.mem_cons] at h
        rcases h with h | h
        · exact absurd h.symm hk
        · exact h
      simp [mapAssign, hk, ih h2]

theorem keys_mapAssign_of_not_mem (m : List (CppString × MapValue)) (key : CppString)
    (v : MapValue) (h : key ∉ m.map Prod.fst) :
    (mapAssign m key v).map Prod.fst = m.map Prod.fst ++ [key] := by
  induction m with
  | nil => simp [mapAssign]
  | cons e rest ih =>
    obtain ⟨k, w⟩ := e
    simp only [List.map_cons, List.mem_cons, not_or] at h
    have hk : ¬ k = key := fun h3 => h.1 h3.symm
    simp [mapAssign, hk, ih h.2]

/-! ## Stores without stale nodes -/

theorem Cache.Clean.empty (cacheTime : Int) : (Cache.empty cacheTime).Clean := by
  constructor <;> simp [Cache.empty, Cache.lruKeys, Cache.keys, mapFind]

theorem Cache.Clean.mem_keys_iff {s : Cache} (h : s.Clean) (k : CppString) :
    k ∈ s.keys ↔ k ∈ s.lruKeys := by
  constructor
  · intro hk
    cases hf : mapFind s.cacheMapping k with
    | none => exact absurd hk ((mapFind_eq_none_iff _ _).1 hf)
    | some v =>
      have := h.find_mem k v hf
      exact List.mem_map.2 ⟨_, this, rfl⟩
  · intro hk
    obtain ⟨n, hn, rfl⟩ := List.mem_map.1 hk
    exact h.mem_keys n hn

theorem Cache.Clean.length_eq {s : Cache} (h : s.Clean) :
    s.cacheMapping.length = s.lruList.length := by
  have hp : s.keys.Perm s.lruKeys :=
    (List.perm_ext_iff_of_nodup h.keys_nodup h.lru_nodup).2 (fun k => h.mem_keys_iff k)
  have := hp.length_eq
  simpa [Cache.keys, Cache.lruKeys] using this

theorem length_mapAssign_of_not_mem (m : List (CppString × MapValue)) (key : CppString)
    (v : MapValue) (h : key ∉ m.map Prod.fst) :
    (mapAssign m key v).length = m.length + 1 := by
  have := congrArg List.length (keys_mapAssign_of_not_mem m key v h)
  simpa using this

theorem length_mapAssign_of_mem (m : List (CppString × MapValue)) (key : CppString)
    (v : MapValue) (h : key ∈ m.map Prod.fst) :
    (mapAssign m key v).length = m.length := by
  have := congrArg List.length (keys_mapAssign_of_mem m key v h)
  simpa using this

/-- The shape of `cacheResponse` when the mapping does not outgrow `cacheMaxSize`. -/
theorem cacheResponse_of_le (s : Cache) (k r : CppString) (a now : Int)
    (h : (mapAssign s.cacheMapping k
      { first := { resp := r, req_timestamp := now,
                   maxAge := if a > 0 then a else s.defCacheTime },
        second := s.nextNode }).length ≤ cacheMaxSize) :
    cacheResponse s k r a now =
      { s with
          lruList := { id := s.nextNode, key := k } :: s.lruList
          cacheMapping := mapAssign s.cacheMapping k
            { first := { resp := r, req_timestamp := now,
                         maxAge := if a > 0 then a else s.defCacheTime },
              second := s.nextNode }
          nextNode := s.nextNode + 1 } := by
  unfold cacheResponse
  simp only []
  rw [if_neg (by omega)]

/-- The shape of `cacheResponse` when the mapping outgrows `cacheMaxSize`: the last node
of the list is dropped and its key erased from the mapping. -/
theorem cacheResponse_of_gt (s : Cache) (k r : CppString) (a now : Int)
    (l0 : List LruNode) (x : LruNode) (hl : s.lruList = l0 ++ [x])
    (h : cacheMaxSize < (mapAssign s.cacheMapping k
      { first := { resp := r, req_timestamp := now,
                   maxAge := if a > 0 then a else s.defCacheTime },
        second := s.nextNode }).length) :
    cacheResponse s k r a now =
      { s with
          lruList := { id := s.nextNode, key := k } :: l0
          cacheMapping := mapErase (mapAssign s.cacheMapping k
            { first := { resp := r, req_timestamp := now,
                         maxAge := if a > 0 then a else s.defCacheTime },
              second := s.nextNode }) x.key
          nextNode := s.nextNode + 1 } := by
  unfold cacheResponse
  simp only []
  rw [if_pos h, hl]
  have h1 : (({ id := s.nextNode, key := k } : LruNode) :: (l0 ++ [x])).getLast? = some x := by
    rw [← List.cons_append, List.getLast?_append]
    simp
  have h2 : (({ id := s.nextNode, key := k } : LruNode) :: (l0 ++ [x])).dropLast
      = { id := s.nextNode, key := k } :: l0 := by
    rw [← List.cons_append, List.dropLast_concat]
  rw [h1, h2]

/-- Inserting a key that is not in a clean store keeps the store clean; the recency keys
become the new key followed by the old ones, cut to `cacheMaxSize`. -/
theorem cacheResponse_clean_fresh {s : Cache} (h : s.Clean) (k r : CppString) (a now : Int)
    (hk : k ∉ s.lruKeys) :
    (cacheResponse s k r a now).Clean ∧
      (cacheResponse s k r a now).lruKeys = (k :: s.lruKeys).take cacheMaxSize := by
  have hkeys : k ∉ s.keys := fun hmem => hk ((h.mem_keys_iff k).1 hmem)
  have hlen := length_mapAssign_of_not_mem s.cacheMapping k
    { first := { resp := r, req_timestamp := now,
                 maxAge := if a > 0 then a else s.defCacheTime },
      second := s.nextNode } hkeys
  have hkm := keys_mapAssign_of_not_mem s.cacheMapping k
    { first := { resp := r, req_timestamp := now,
                 maxAge := if a > 0 then a else s.defCacheTime },
      second := s.nextNode } hkeys
  have hleq := h.length_eq
  have hsize := h.size_le
  have hfresh : s.nextNode ∉ s.lruList.map LruNode.id := by
    intro hmem
    obtain ⟨n, hn, hid⟩ := List.mem_map.1 hmem
    have := h.ids_lt n hn
    omega
  by_cases hsz : s.lruList.length < cacheMaxSize
  · rw [cacheResponse_of_le s k r a now (by omega)]
    refine ⟨⟨?_, ?_, ?_, ?_, ?_, ?_, ?_⟩, ?_⟩
    · exact List.nodup_cons.2 ⟨hfresh, h.ids_nodup⟩
    · intro n hn
      simp only [List.mem_cons] at hn
      rcases hn with rfl | hn
      · simp
      · have := h.ids_lt n hn
        simp only
        omega
    · exact List.nodup_cons.2 ⟨hk, h.lru_nodup⟩
    · simp only [Cache.keys, hkm]
      exact List.Nodup.append h.keys_nodup (List.nodup_singleton k)
        (List.disjoint_singleton.2 hkeys)
    · intro k2 v hf
      simp only [mapFind_mapAssign] at hf
      by_cases hk2 : k2 = k
      · subst hk2
        simp only [if_true, Option.some.injEq] at hf
        subst hf
        simp
      · rw [if_neg hk2] at hf
        exact List.mem_cons_of_mem _ (h.find_mem k2 v hf)
    · intro n hn
      simp only [List.mem_cons] at hn
      simp only [Cache.keys, hkm, List.mem_append, List.mem_singleton]
      rcases hn with rfl | hn
      · exact Or.inr rfl
      · exact Or.inl (h.mem_keys n hn)
    · simp only [List.length_cons]
      omega
    · simp only [Cache.lruKeys, List.map_cons]
      rw [List.take_of_length_le]
      simp only [List.length_cons, List.length_map]
      omega
  · have h4 : s.lruList.length = cacheMaxSize := by omega
    rcases List.eq_nil_or_concat s.lruList with hnil | ⟨l0, x, hl⟩
    · rw [hnil] at h4
      simp [cacheMaxSize] at h4
    · rw [List.concat_eq_append] at hl
      rw [cacheResponse_of_gt s k r a now l0 x hl (by omega)]
      have hids := h.ids_nodup
      have hlru := h.lru_nodup
      simp only [Cache.lruKeys] at hlru hk
      rw [hl] at hids hlru hfresh hk h4
      simp only [List.map_append, List.map_cons, List.map_nil] at hids hlru hfresh hk
      have hxk : x.key ≠ k := by
        intro hx
        apply hk
        simp [hx]
      have hx0 : x.key ∉ l0.map LruNode.key := by
        have := List.disjoint_of_nodup_append hlru
        intro hmem
        exact this hmem (List.mem_singleton_self _)
      refine ⟨⟨?_, ?_, ?_, ?_, ?_, ?_, ?_⟩, ?_⟩
      · simp only [List.map_cons, List.nodup_cons]
        refine ⟨fun hmem => hfresh (List.mem_append_left _ hmem), ?_⟩
        exact (List.nodup_append.1 hids).1
      · intro n hn
        simp only [List.mem_cons] at hn
        rcases hn with rfl | hn
        · simp
        · have := h.ids_lt n (by rw [hl]; exact List.mem_append_left _ hn)
          simp only
          omega
      · simp only [Cache.lruKeys, List.map_cons, List.nodup_cons]
        refine ⟨fun hmem => hk (List.mem_append_left _ hmem), ?_⟩
        exact (List.nodup_append.1 hlru).1
      · simp only [Cache.keys, keys_mapErase, hkm]
        exact List.Nodup.filter _
          (List.Nodup.append h.keys_nodup (List.nodup_singleton k)
            (List.disjoint_singleton.2 hkeys))
      · intro k2 v hf
        simp only [mapFind_mapErase, mapFind_mapAssign] at hf
        by_cases hk2x : k2 = x.key
        · rw [if_pos hk2x] at hf
          exact absurd hf (by simp)
        · rw [if_neg hk2x] at hf
          by_cases hk2 : k2 = k
          · subst hk2
            simp only [if_true, Option.some.injEq] at hf
            subst hf
            simp
          · rw [if_neg hk2] at hf
            have hm := h.find_mem k2 v hf
            rw [hl] at hm
            simp only [List.mem_append, List.mem_singleton] at hm
            rcases hm with hm | hm
            · exact List.mem_cons_of_mem _ hm
            · exfalso
              apply hk2x
              rw [← hm]
      · intro n hn
        simp only [List.mem_cons] at hn
        simp only [Cache.keys, keys_mapErase, hkm, List.mem_filter, List.mem_append,
          List.mem_singleton, decide_eq_true_eq]
        rcases hn with rfl | hn
        · exact ⟨Or.inr rfl, fun hx => hxk hx.symm⟩
        · refine ⟨Or.inl (h.mem_keys n (by rw [hl]; exact List.mem_append_left _ hn)), ?_⟩
          intro hx
          apply hx0
          rw [← hx]
          exact List.mem_map.2 ⟨n, hn, rfl⟩
      · simp only [List.length_cons]
        simp only [List.length_append, List.length_cons, List.length_nil] at h4
        omega
      · simp only [Cache.lruKeys, List.map_cons, hl, List.map_append, List.map_nil]
        simp only [List.length_append, List.length_cons, List.length_nil] at h4
        have h3 : (l0.map LruNode.key).length = 3 := by
          simp only [List.length_map]
          simp only [cacheMaxSize] at h4
          omega
        show _ = List.take 4 _
        rw [List.take_succ_cons, List.take_append_of_le_length (by omega),
          List.take_of_length_le (by omega)]

/-- In a clean store the node a mapping entry designates is the only node carrying the
key, so erasing the node erases the key from the recency keys. -/
theorem Cache.Clean.lruKeys_listErase {s : Cache} (h : s.Clean) (j : CppString)
    (it : MapValue) (hf : mapFind s.cacheMapping j = some it) :
    (listErase s.lruList it.second).map LruNode.key
      = s.lruKeys.filter (fun k => decide (k ≠ j)) := by
  have hnode := h.find_mem j it hf
  have hcongr : listErase s.lruList it.second
      = s.lruList.filter ((fun k => decide (k ≠ j)) ∘ LruNode.key) := by
    unfold listErase
    apply List.filter_congr
    intro n hn
    simp only [Function.comp, ne_eq, decide_not, Bool.not_eq_eq_eq_not, Bool.not_not,
      Bool.not_eq_not, decide_eq_decide]
    constructor
    · intro hid
      have := List.inj_on_of_nodup_map h.ids_nodup hn hnode hid
      rw [this]
    · intro hkey
      have hl : (s.lruList.map LruNode.key).Nodup := h.lru_nodup
      have := List.inj_on_of_nodup_map hl hn hnode hkey
      rw [this]
  rw [hcongr, Cache.lruKeys, List.filter_map]

/-- A lookup keeps a clean store clean. On a hit the key moves to the front of the
recency keys; on a miss the recency keys are unchanged or lose the key. -/
theorem getCacheResponse_clean {s : Cache} (h : s.Clean) (j : CppString) (now1 now2 : Int) :
    (getCacheResponse s j now1 now2).1.Clean ∧
    ((getCacheResponse s j now1 now2).2.isSome = true →
      (getCacheResponse s j now1 now2).1.lruKeys
        = j :: s.lruKeys.filter (fun k => decide (k ≠ j))) ∧
    ((getCacheResponse s j now1 now2).2 = none →
      (getCacheResponse s j now1 now2).1.lruKeys = s.lruKeys ∨
      (getCacheResponse s j now1 now2).1.lruKeys
        = s.lruKeys.filter (fun k => decide (k ≠ j))) := by
  unfold getCacheResponse
  cases hf : mapFind s.cacheMapping j with
  | none => exact ⟨h, by simp, fun _ => Or.inl rfl⟩
  | some it =>
    have hnode := h.find_mem j it hf
    have hjk : j ∈ s.keys := by
      by_contra hc
      rw [(mapFind_eq_none_iff _ _).2 hc] at hf
      exact absurd hf (by simp)
    have herase := h.lruKeys_listErase j it hf
    have hsub : (listErase s.lruList it.second).Sublist s.lruList := List.filter_sublist _
    have hlt : (listErase s.lruList it.second).length < s.lruList.length := by
      unfold listErase
      rw [List.length_filter_lt_length_iff_exists]
      exact ⟨_, hnode, by simp⟩
    have hmemE : ∀ n ∈ listErase s.lruList it.second, n ∈ s.lruList ∧ n.key ≠ j := by
      intro n hn
      refine ⟨hsub.subset hn, ?_⟩
      have : n.key ∈ (listErase s.lruList it.second).map LruNode.key :=
        List.mem_map.2 ⟨n, hn, rfl⟩
      rw [herase] at this
      simpa using (List.mem_filter.1 this).2
    have hmemK : ∀ k2 v, k2 ≠ j → mapFind s.cacheMapping k2 = some v →
        ({ id := v.second, key := k2 } : LruNode) ∈ listErase s.lruList it.second := by
      intro k2 v hk2 hf2
      have hm := h.find_mem k2 v hf2
      unfold listErase
      rw [List.mem_filter]
      refine ⟨hm, ?_⟩
      simp only [ne_eq, decide_not, Bool.not_eq_eq_eq_not, Bool.not_true, decide_eq_false_iff_not]
      intro hid
      have := List.inj_on_of_nodup_map h.ids_nodup hm hnode hid
      exact hk2 (congrArg LruNode.key this)
    simp only []
    by_cases hv : it.first.checkValidity now1 = true
    · rw [if_pos hv]
      refine ⟨⟨?_, ?_, ?_, ?_, ?_, ?_, ?_⟩, ?_, ?_⟩
      · simp only [List.map_cons, List.nodup_cons]
        refine ⟨?_, (hsub.map _).nodup h.ids_nodup⟩
        intro hmem
        obtain ⟨n, hn, hid⟩ := List.mem_map.1 hmem
        have := h.ids_lt n (hsub.subset hn)
        omega
      · intro n hn
        simp only [List.mem_cons] at hn
        rcases hn with rfl | hn
        · simp
        · have := h.ids_lt n (hsub.subset hn)
          simp only
          omega
      · simp only [Cache.lruKeys, List.map_cons, herase, List.nodup_cons]
        refine ⟨by simp [List.mem_filter], List.Nodup.filter _ h.lru_nodup⟩
      · simp only [Cache.keys]
        rw [keys_mapAssign_of_mem _ _ _ hjk]
        exact h.keys_nodup
      · intro k2 v hf2
        simp only [mapFind_mapAssign] at hf2
        by_cases hk2 : k2 = j
        · subst hk2
          simp only [if_true, Option.some.injEq] at hf2
          subst hf2
          simp
        · rw [if_neg hk2] at hf2
          exact List.mem_cons_of_mem _ (hmemK k2 v hk2 hf2)
      · intro n hn
        simp only [Cache.keys]
        rw [keys_mapAssign_of_mem _ _ _ hjk]
        simp only [List.mem_cons] at hn
        rcases hn with rfl | hn
        · exact hjk
        · exact h.mem_keys n (hsub.subset hn)
      · have := h.size_le
        simp only [List.length_cons]
        omega
      · intro _
        simp only [Cache.lruKeys, List.map_cons, herase]
      · intro hnone
        simp at hnone
    · rw [if_neg hv]
      by_cases hv2 : (!it.first.checkValidity now2) = true
      · rw [if_pos hv2]
        refine ⟨⟨?_, ?_, ?_, ?_, ?_, ?_, ?_⟩, ?_, ?_⟩
        · exact (hsub.map _).nodup h.ids_nodup
        · intro n hn
          exact h.ids_lt n (hsub.subset hn)
        · simp only [Cache.lruKeys, herase]
          exact List.Nodup.filter _ h.lru_nodup
        · simp only [Cache.keys, keys_mapErase]
          exact List.Nodup.filter _ h.keys_nodup
        · intro k2 v hf2
          simp only [mapFind_mapErase] at hf2
          by_cases hk2 : k2 = j
          · rw [if_pos hk2] at hf2
            exact absurd hf2 (by simp)
          · rw [if_neg hk2] at hf2
            exact hmemK k2 v hk2 hf2
        · intro n hn
          simp only [Cache.keys, keys_mapErase, List.mem_filter, decide_eq_true_eq]
          exact ⟨h.mem_keys n (hmemE n hn).1, (hmemE n hn).2⟩
        · have := h.size_le
          simp only
          omega
        · intro hsome
          simp at hsome
        · intro _
          exact Or.inr herase
      · rw [if_neg hv2]
        exact ⟨h, by simp, fun _ => Or.inl rfl⟩

/-! ## Runs of inserts of distinct keys -/

theorem take_append_take {α : Type} (n : Nat) (a b : List α) :
    (a ++ b.take n).take n = (a ++ b).take n := by
  rw [List.take_append_eq_append_take, List.take_append_eq_append_take, List.take_take,
    Nat.min_eq_left (Nat.sub_le _ _)]

/-- Inserting pairwise distinct keys, none of them in the clean store: the store stays
clean and the recency keys are the inserted keys, latest first, followed by the old
ones, cut to `cacheMaxSize`. -/
theorem runOps_inserts_clean (ops : List CacheOp) :
    ∀ (s : Cache), s.Clean → (∀ op ∈ ops, op.isInsert = true) →
      (ops.map CacheOp.key).Nodup → (∀ op ∈ ops, op.key ∉ s.lruKeys) →
      (runOps s ops).Clean ∧
        (runOps s ops).lruKeys
          = ((ops.map CacheOp.key).reverse ++ s.lruKeys).take cacheMaxSize := by
  induction ops with
  | nil =>
    intro s h _ _ _
    refine ⟨h, ?_⟩
    simp only [runOps, List.foldl_nil, List.map_nil, List.reverse_nil, List.nil_append]
    rw [List.take_of_length_le]
    have := h.size_le
    simpa [Cache.lruKeys] using this
  | cons op ops ih =>
    intro s h hins hnd hdisj
    cases op with
    | lookup k n1 n2 =>
      have := hins _ (List.mem_cons_self _ _)
      simp [CacheOp.isInsert] at this
    | insert k r a now =>
      have hk : k ∉ s.lruKeys := hdisj _ (List.mem_cons_self _ _)
      obtain ⟨hc, hkeys⟩ := cacheResponse_clean_fresh h k r a now hk
      simp only [List.map_cons, List.nodup_cons, CacheOp.key] at hnd
      have hdisj2 : ∀ op ∈ ops, op.key ∉ (cacheResponse s k r a now).lruKeys := by
        intro op hop hmem
        rw [hkeys] at hmem
        have hm := List.mem_of_mem_take hmem
        simp only [List.mem_cons] at hm
        rcases hm with hm | hm
        · exact hnd.1 (List.mem_map.2 ⟨op, hop, hm⟩)
        · exact hdisj op (List.mem_cons_of_mem _ hop) hm
      obtain ⟨hc2, hkeys2⟩ := ih (cacheResponse s k r a now) hc
        (fun op hop => hins op (List.mem_cons_of_mem _ hop)) hnd.2 hdisj2
      have hrun : runOps s (CacheOp.insert k r a now :: ops)
          = runOps (cacheResponse s k r a now) ops := rfl
      rw [hrun]
      refine ⟨hc2, ?_⟩
      rw [hkeys2, hkeys, take_append_take]
      simp [CacheOp.key]

/-! ## Recency order after a hit -/

/-- If `a` comes before `b` in a duplicate-free list and `b` survives the cut to the
first `n` elements, then `a` survives too, still before `b`. -/
theorem sublist_pair_take {α : Type} (l : List α) (a b : α) (n : Nat) (hnd : l.Nodup)
    (hsub : [a, b].Sublist l) (hb : b ∈ l.take n) : [a, b].Sublist (l.take n) := by
  have hsplit := List.take_append_drop n l
  rw [← hsplit] at hsub hnd
  have hdj := List.disjoint_of_nodup_append hnd
  obtain ⟨a1, a2, heq, h1, h2⟩ := List.sublist_append_iff.1 hsub
  rcases a1 with _ | ⟨x, _ | ⟨y, _ | ⟨z, a1⟩⟩⟩
  · simp only [List.nil_append] at heq
    subst heq
    exact absurd (h2.subset (by simp)) (fun hmem => hdj hb hmem)
  · simp only [List.singleton_append, List.cons.injEq] at heq
    obtain ⟨_, heq⟩ := heq
    subst heq
    exact absurd (h2.subset (by simp)) (fun hmem => hdj hb hmem)
  · simp only [List.cons_append, List.nil_append, List.cons.injEq] at heq
    obtain ⟨rfl, rfl, _⟩ := heq
    exact h1
  · simp at heq

theorem getCacheResponse_isSome_mem (s : Cache) (j : CppString) (now1 now2 : Int)
    (h : (getCacheResponse s j now1 now2).2.isSome = true) : j ∈ s.keys := by
  unfold getCacheResponse at h
  cases hf : mapFind s.cacheMapping j with
  | none =>
    rw [hf] at h
    simp at h
  | some it =>
    by_contra hc
    rw [(mapFind_eq_none_iff _ _).2 hc] at hf
    exact absurd hf (by simp)

/-- After `K` has been promoted: along later inserts of keys that are not in the store
and lookups of keys other than `K`, an untouched key `k2` that is still in the recency
list has `K` in front of it. -/
theorem runOps_keeps_order (K k2 : CppString) (later : List CacheOp) :
    ∀ (s : Cache), s.Clean →
      (∀ op ∈ later, op.isInsert = true → op.key ∉ s.lruKeys) →
      ((later.filter CacheOp.isInsert).map CacheOp.key).Nodup →
      (∀ op ∈ later, op.isInsert = false → op.key ≠ K) →
      (∀ op ∈ later, op.key ≠ k2) →
      (k2 ∈ s.lruKeys → [K, k2].Sublist s.lruKeys) →
      (runOps s later).Clean ∧
        (k2 ∈ (runOps s later).lruKeys → [K, k2].Sublist (runOps s later).lruKeys) := by
  induction later with
  | nil =>
    intro s h _ _ _ _ hJ
    exact ⟨h, hJ⟩
  | cons op later ih =>
    intro s h hfresh hnd hlook htouch hJ
    have hk2 : op.key ≠ k2 := htouch op (List.mem_cons_self _ _)
    cases op with
    | insert k r a now =>
      have hk : k ∉ s.lruKeys := hfresh _ (List.mem_cons_self _ _) rfl
      obtain ⟨hc, hkeys⟩ := cacheResponse_clean_fresh h k r a now hk
      have hrun : runOps s (CacheOp.insert k r a now :: later)
          = runOps (cacheResponse s k r a now) later := rfl
      rw [hrun]
      simp only [List.filter_cons, CacheOp.isInsert, if_true, List.map_cons, CacheOp.key,
        List.nodup_cons] at hnd
      apply ih (cacheResponse s k r a now) hc
      · intro op hop hins hmem
        rw [hkeys] at hmem
        have hm := List.mem_of_mem_take hmem
        simp only [List.mem_cons] at hm
        rcases hm with hm | hm
        · apply hnd.1
          rw [← hm]
          exact List.mem_map.2 ⟨op, List.mem_filter.2 ⟨hop, hins⟩, rfl⟩
        · exact hfresh op (List.mem_cons_of_mem _ hop) hins hm
      · exact hnd.2
      · exact fun op hop => hlook op (List.mem_cons_of_mem _ hop)
      · exact fun op hop => htouch op (List.mem_cons_of_mem _ hop)
      · intro hmem
        rw [hkeys] at hmem ⊢
        have hm := List.mem_of_mem_take hmem
        simp only [List.mem_cons] at hm
        rcases hm with hm | hm
        · exact absurd hm.symm hk2
        · exact sublist_pair_take (k :: s.lruKeys) K k2 cacheMaxSize
            (List.nodup_cons.2 ⟨hk, h.lru_nodup⟩) ((hJ hm).cons k) hmem
    | lookup j n1 n2 =>
      have hjK : j ≠ K := hlook _ (List.mem_cons_self _ _) rfl
      obtain ⟨hc, hhit, hmiss⟩ := getCacheResponse_clean h j n1 n2
      have hrun : runOps s (CacheOp.lookup j n1 n2 :: later)
          = runOps (getCacheResponse s j n1 n2).1 later := rfl
      rw [hrun]
      simp only [List.filter_cons, CacheOp.isInsert, Bool.false_eq_true, if_false] at hnd
      have hpair : ([K, k2].filter (fun k => decide (k ≠ j))) = [K, k2] := by
        have h1 : K ≠ j := fun hh => hjK hh.symm
        have h2 : k2 ≠ j := fun hh => hk2 hh.symm
        simp [List.filter, h1, h2]
      have hfilter : k2 ∈ s.lruKeys.filter (fun k => decide (k ≠ j)) →
          [K, k2].Sublist (s.lruKeys.filter (fun k => decide (k ≠ j))) := by
        intro hmem
        have := (hJ (List.mem_filter.1 hmem).1).filter (fun k => decide (k ≠ j))
        rwa [hpair] at this
      have hsubset : ∀ k, k ∈ (getCacheResponse s j n1 n2).1.lruKeys → k ∈ s.lruKeys := by
        intro k hmem
        cases hr : (getCacheResponse s j n1 n2).2 with
        | none =>
          rcases hmiss hr with he | he
          · rwa [he] at hmem
          · rw [he] at hmem
            exact (List.mem_filter.1 hmem).1
        | some b =>
          have hs : (getCacheResponse s j n1 n2).2.isSome = true := by simp [hr]
          rw [hhit hs] at hmem
          simp only [List.mem_cons] at hmem
          rcases hmem with hm | hm
          · rw [hm]
            exact (h.mem_keys_iff j).1 (getCacheResponse_isSome_mem s j n1 n2 hs)
          · exact (List.mem_filter.1 hm).1
      apply ih (getCacheResponse s j n1 n2).1 hc
      · intro op hop hins hmem
        exact hfresh op (List.mem_cons_of_mem _ hop) hins (hsubset _ hmem)
      · exact hnd
      · exact fun op hop => hlook op (List.mem_cons_of_mem _ hop)
      · exact fun op hop => htouch op (List.mem_cons_of_mem _ hop)
      · intro hmem
        cases hr : (getCacheResponse s j n1 n2).2 with
        | none =>
          rcases hmiss hr with he | he
          · rw [he] at hmem ⊢
            exact hJ hmem
          · rw [he] at hmem ⊢
            exact hfilter hmem
        | some b =>
          have hs : (getCacheResponse s j n1 n2).2.isSome = true := by simp [hr]
          rw [hhit hs] at hmem ⊢
          simp only [List.mem_cons] at hmem
          rcases hmem with hm | hm
          · exact absurd hm.symm hk2
          · exact (hfilter hm).cons j

/-! ## Runs that never insert a key that is already stored -/

/-- Without an insert of a stored key the store never gets a stale node: the mapping
holds at most `cacheMaxSize` entries, the recency keys are pairwise distinct, and they
are exactly the keys of the mapping. -/
theorem invariants_without_overwrite (ops : List CacheOp) :
    ∀ (s : Cache), s.Clean → insertsAbsentKeys s ops →
      (runOps s ops).Clean ∧
      (runOps s ops).cacheMapping.length ≤ cacheMaxSize ∧
      (runOps s ops).lruKeys.Nodup ∧
      (∀ k, k ∈ (runOps s ops).keys ↔ k ∈ (runOps s ops).lruKeys) := by
  induction ops with
  | nil =>
    intro s h _
    refine ⟨h, ?_, h.lru_nodup, h.mem_keys_iff⟩
    rw [show runOps s [] = s from rfl, h.length_eq]
    exact h.size_le
  | cons op ops ih =>
    intro s h hops
    have hrun : runOps s (op :: ops) = runOps (CacheOp.apply s op) ops := rfl
    rw [hrun]
    apply ih _ _ hops.2
    cases op with
    | insert k r a now =>
      have hk : k ∉ s.keys := hops.1 rfl
      exact (cacheResponse_clean_fresh h k r a now
        (fun hmem => hk ((h.mem_keys_iff k).2 hmem))).1
    | lookup j n1 n2 => exact (getCacheResponse_clean h j n1 n2).1

/-! ## Claims on the cache store -/

/-- C5 (LRU bound). Inserting more than `cacheMaxSize` pairwise distinct fingerprints, in
order and without lookups, into the empty store leaves exactly `cacheMaxSize` entries;
the recency list holds the last `cacheMaxSize` inserted fingerprints, latest first; the
keys of the mapping are exactly those fingerprints; and an inserted fingerprint is absent
(evicted) exactly when it is among the first `N - cacheMaxSize` inserted. -/
theorem lru_bound (cacheTime : Int) (ops : List CacheOp)
    (hins : ∀ op ∈ ops, op.isInsert = true)
    (hdistinct : (ops.map CacheOp.key).Nodup)
    (hN : cacheMaxSize < ops.length) :
    (runOps (Cache.empty cacheTime) ops).cacheMapping.length = cacheMaxSize ∧
    (runOps (Cache.empty cacheTime) ops).lruKeys
      = ((ops.map CacheOp.key).drop (ops.length - cacheMaxSize)).reverse ∧
    (∀ k, k ∈ (runOps (Cache.empty cacheTime) ops).keys
      ↔ k ∈ (ops.map CacheOp.key).drop (ops.length - cacheMaxSize)) ∧
    (∀ k ∈ ops.map CacheOp.key, k ∉ (runOps (Cache.empty cacheTime) ops).keys
      ↔ k ∈ (ops.map CacheOp.key).take (ops.length - cacheMaxSize)) := by
  obtain ⟨hc, hkeys⟩ := runOps_inserts_clean ops (Cache.empty cacheTime)
    (Cache.Clean.empty cacheTime) hins hdistinct (by simp [Cache.empty, Cache.lruKeys])
  have hkeys2 : (runOps (Cache.empty cacheTime) ops).lruKeys
      = ((ops.map CacheOp.key).drop (ops.length - cacheMaxSize)).reverse := by
    rw [hkeys]
    simp only [Cache.empty, Cache.lruKeys, List.map_nil, List.append_nil]
    rw [List.take_reverse, List.length_map]
  have hmem : ∀ k, k ∈ (runOps (Cache.empty cacheTime) ops).keys
      ↔ k ∈ (ops.map CacheOp.key).drop (ops.length - cacheMaxSize) := by
    intro k
    rw [hc.mem_keys_iff, hkeys2, List.mem_reverse]
  refine ⟨?_, hkeys2, hmem, ?_⟩
  · rw [hc.length_eq]
    have := congrArg List.length hkeys2
    simp only [Cache.lruKeys, List.length_map, List.length_reverse, List.length_drop] at this
    omega
  · intro k hk
    rw [hmem]
    have hsplit := List.take_append_drop (ops.length - cacheMaxSize) (ops.map CacheOp.key)
    have hnd := hdistinct
    rw [← hsplit] at hnd hk
    have hdj := List.disjoint_of_nodup_append hnd
    rw [List.mem_append] at hk
    constructor
    · intro hnot
      rcases hk with hk | hk
      · exact hk
      · exact absurd hk hnot
    · intro htake hdrop
      exact hdj htake hdrop

/-- Five distinct fingerprints `A` .. `E` inserted into the empty store satisfy the
hypotheses of `lru_bound`: the store ends with four entries, `B` .. `E`. -/
theorem lru_bound_witness :
    (runOps (Cache.empty 300)
        [insertAt0 keyA, insertAt0 keyB, insertAt0 keyC, insertAt0 keyD,
         insertAt0 keyE]).cacheMapping.length = cacheMaxSize ∧
    (runOps (Cache.empty 300)
        [insertAt0 keyA, insertAt0 keyB, insertAt0 keyC, insertAt0 keyD,
         insertAt0 keyE]).lruKeys = [keyE, keyD, keyC, keyB] := by
  have h := lru_bound 300
    [insertAt0 keyA, insertAt0 keyB, insertAt0 keyC, insertAt0 keyD, insertAt0 keyE]
    (by decide) (by decide) (by decide)
  exact ⟨h.1, h.2.1⟩

/-- C4 (promotion on hit). First part: the store is built from the empty store by inserts
of pairwise distinct keys; a lookup of `K` hits and leaves the store `s1`; afterwards come
inserts of fresh keys (pairwise distinct, never inserted before) and lookups of keys
other than `K`. Then for every other key `k2` that is not touched by those later calls:
whenever `K` is gone from the store, `k2` is gone as well.
Second part, the worked scenario with capacity 4: insert `A`, `B`, `C`, `D` (TTL 300 s),
look `A` up one second later (a hit), insert `E`; the store then holds exactly `A`, `C`,
`D`, `E`, in the recency order `E`, `A`, `D`, `C`, and `B` is absent. -/
theorem promotion_on_hit :
    (∀ (cacheTime : Int) (ops later : List CacheOp) (K k2 b : CppString) (now1 now2 : Int)
        (s1 : Cache),
      (∀ op ∈ ops, op.isInsert = true) →
      (ops.map CacheOp.key).Nodup →
      getCacheResponse (runOps (Cache.empty cacheTime) ops) K now1 now2 = (s1, some b) →
      (∀ op ∈ later, op.isInsert = true → op.key ∉ ops.map CacheOp.key) →
      ((later.filter CacheOp.isInsert).map CacheOp.key).Nodup →
      (∀ op ∈ later, op.isInsert = false → op.key ≠ K) →
      k2 ≠ K →
      (∀ op ∈ later, op.key ≠ k2) →
      K ∉ (runOps s1 later).keys → k2 ∉ (runOps s1 later).keys) ∧
    ((getCacheResponse storeABCD keyA 1000000000 1000000000).2 = some "x".toList ∧
      (runOps storeABCD
        [.lookup keyA 1000000000 1000000000, insertTtl300 keyE]).keys
          = [keyA, keyC, keyD, keyE] ∧
      (runOps storeABCD
        [.lookup keyA 1000000000 1000000000, insertTtl300 keyE]).lruKeys
          = [keyE, keyA, keyD, keyC] ∧
      mapFind (runOps storeABCD
        [.lookup keyA 1000000000 1000000000, insertTtl300 keyE]).cacheMapping keyB
          = none) := by
  refine ⟨?_, by decide⟩
  intro cacheTime ops later K k2 b now1 now2 s1 hins hdistinct hhit hfresh hnd hlook hne
    htouch hK hk2
  obtain ⟨hc0, hkeys0⟩ := runOps_inserts_clean ops (Cache.empty cacheTime)
    (Cache.Clean.empty cacheTime) hins hdistinct (by simp [Cache.empty, Cache.lruKeys])
  obtain ⟨hc1, hhit1, _⟩ := getCacheResponse_clean hc0 K now1 now2
  have hsome : (getCacheResponse (runOps (Cache.empty cacheTime) ops) K now1 now2).2.isSome
      = true := by simp [hhit]
  have hKmem := (hc0.mem_keys_iff K).1 (getCacheResponse_isSome_mem _ K now1 now2 hsome)
  have hkeys1 := hhit1 hsome
  rw [hhit] at hc1 hkeys1
  simp only at hc1 hkeys1
  have hsub0 : ∀ k, k ∈ (runOps (Cache.empty cacheTime) ops).lruKeys
      → k ∈ ops.map CacheOp.key := by
    intro k hk
    rw [hkeys0] at hk
    have := List.mem_of_mem_take hk
    simpa [Cache.empty, Cache.lruKeys] using this
  have hsub1 : ∀ k, k ∈ s1.lruKeys → k ∈ ops.map CacheOp.key := by
    intro k hk
    rw [hkeys1] at hk
    simp only [List.mem_cons] at hk
    rcases hk with hk | hk
    · rw [hk]
      exact hsub0 K hKmem
    · exact hsub0 k (List.mem_filter.1 hk).1
  obtain ⟨hc2, hJ⟩ := runOps_keeps_order K k2 later s1 hc1
    (fun op hop hi hmem => hfresh op hop hi (hsub1 _ hmem)) hnd hlook htouch
    (by
      intro hmem
      rw [hkeys1] at hmem ⊢
      simp only [List.mem_cons] at hmem
      rcases hmem with hm | hm
      · exact absurd hm hne
      · exact List.Sublist.cons₂ K (List.singleton_sublist.2 hm))
  have hk2' := (hc2.mem_keys_iff k2).1 hk2
  have := (hJ hk2').subset (List.mem_cons_self K _)
  exact hK ((hc2.mem_keys_iff K).2 this)

/-- The first part of `promotion_on_hit` applied to the store `A`, `B`, `C`, `D` with a
hit on `A` and `C` as the untouched key. After the insert of `E` the key `C` is still
stored, hence so is `A`. After the inserts of `E`, `F`, `G`, `H` the key `A` has been
evicted, hence `C` is gone as well. -/
theorem promotion_on_hit_witness :
    (keyC ∈ (runOps (getCacheResponse storeABCD keyA 1000000000 1000000000).1
        [insertTtl300 keyE]).keys ∧
      keyA ∈ (runOps (getCacheResponse storeABCD keyA 1000000000 1000000000).1
        [insertTtl300 keyE]).keys) ∧
    (keyA ∉ (runOps (getCacheResponse storeABCD keyA 1000000000 1000000000).1
        [insertTtl300 keyE, insertTtl300 keyF, insertTtl300 "G".toList,
         insertTtl300 "H".toList]).keys ∧
      keyC ∉ (runOps (getCacheResponse storeABCD keyA 1000000000 1000000000).1
        [insertTtl300 keyE, insertTtl300 keyF, insertTtl300 "G".toList,
         insertTtl300 "H".toList]).keys) := by
  refine ⟨⟨by decide, ?_⟩, ⟨by decide, ?_⟩⟩
  · by_contra hA
    exact promotion_on_hit.1 300
      [insertTtl300 keyA, insertTtl300 keyB, insertTtl300 keyC, insertTtl300 keyD]
      [insertTtl300 keyE] keyA keyC "x".toList 1000000000 1000000000
      (getCacheResponse storeABCD keyA 1000000000 1000000000).1
      (by decide) (by decide) (by decide) (by decide) (by decide) (by decide) (by decide)
      (by decide) hA (by decide)
  · exact promotion_on_hit.1 300
      [insertTtl300 keyA, insertTtl300 keyB, insertTtl300 keyC, insertTtl300 keyD]
      [insertTtl300 keyE, insertTtl300 keyF, insertTtl300 "G".toList, insertTtl300 "H".toList]
      keyA keyC "x".toList 1000000000 1000000000
      (getCacheResponse storeABCD keyA 1000000000 1000000000).1
      (by decide) (by decide) (by decide) (by decide) (by decide) (by decide) (by decide)
      (by decide) (by decide)

/-- C1 (capacity invariant), evaluated on the calls insert `A`, `A`, `B`, `C`, `D`, `E`,
`F` applied to the empty store: after `E` the list still holds the second node of `A`
although `A` is no longer in the mapping; the insert of `F` pops that node, the erase of
`A` from the mapping removes nothing, and the mapping is left with five entries, more
than `cacheMaxSize`. -/
theorem capacity_exceeded_after_repeated_key :
    storeAABCDE.lruKeys = [keyE, keyD, keyC, keyB, keyA] ∧
    storeAABCDE.keys = [keyB, keyC, keyD, keyE] ∧
    (CacheOp.apply storeAABCDE (insertAt0 keyF)).keys = [keyB, keyC, keyD, keyE, keyF] ∧
    cacheMaxSize < (CacheOp.apply storeAABCDE (insertAt0 keyF)).cacheMapping.length := by
  decide

/-- C2 (bijection invariant), evaluated on two inserts of `A` into the empty store: the
mapping holds `A` once, the recency list holds `A` twice (the node of the first insert is
not erased), and after four more inserts the list holds a key, `A`, that the mapping
does not hold. -/
theorem repeated_insert_duplicates_list_key :
    (runOps (Cache.empty 300) [insertAt0 keyA, insertAt0 keyA]).keys = [keyA] ∧
    (runOps (Cache.empty 300) [insertAt0 keyA, insertAt0 keyA]).lruKeys = [keyA, keyA] ∧
    keyA ∈ storeAABCDE.lruKeys ∧ keyA ∉ storeAABCDE.keys := by
  decide

/-- C3 (insert is never refused), evaluated in the reachable store `storeAABCDE`: an
insert of `A` with bytes `fresh`, immediately followed by a lookup of `A` at the same
clock reading and with the positive default TTL 300, is a miss. The insert makes the
mapping hold five entries, the node popped from the back of the list is the stale node
of `A`, and the erase of its key removes the entry just inserted. -/
theorem insert_then_lookup_misses :
    0 < storeAABCDE.defCacheTime ∧
    (getCacheResponse (cacheResponse storeAABCDE keyA "fresh".toList 0 0) keyA 0 0).2 = none ∧
    mapFind (cacheResponse storeAABCDE keyA "fresh".toList 0 0).cacheMapping keyA = none := by
  decide

/-- C6 (TTL expiry), evaluated on a store in which `A` was inserted twice at clock
reading 0 with max-age 10 s: a lookup of `A` 10 s later is a miss and erases `A` from the
mapping, but the recency list still holds the key `A` (the node of the first insert). -/
theorem expired_key_stays_in_list :
    (getCacheResponse
      (runOps (Cache.empty 300) [.insert keyA "x".toList 10 0, .insert keyA "x".toList 10 0])
      keyA 10000000000 10000000000).2 = none ∧
    keyA ∉ (getCacheResponse
      (runOps (Cache.empty 300) [.insert keyA "x".toList 10 0, .insert keyA "x".toList 10 0])
      keyA 10000000000 10000000000).1.keys ∧
    keyA ∈ (getCacheResponse
      (runOps (Cache.empty 300) [.insert keyA "x".toList 10 0, .insert keyA "x".toList 10 0])
      keyA 10000000000 10000000000).1.lruKeys := by
  decide

/-- TTL expiry in general. A lookup of a key whose entry was stored at `t0` with max-age
`T` hits and returns the stored bytes when the elapsed seconds are below `T`. When they
have reached `T` at both clock readings the lookup misses, the key is erased from the
mapping and the other entries are unchanged; in a store without stale nodes the key is
then also gone from the recency list. -/
theorem ttl_expiry_general (s : Cache) (k : CppString) (it : MapValue) (now1 now2 : Int)
    (hf : mapFind s.cacheMapping k = some it) :
    (elapsedSeconds now1 it.first.req_timestamp < it.first.maxAge →
      (getCacheResponse s k now1 now2).2 = some it.first.resp) ∧
    (it.first.maxAge ≤ elapsedSeconds now1 it.first.req_timestamp →
      it.first.maxAge ≤ elapsedSeconds now2 it.first.req_timestamp →
      (getCacheResponse s k now1 now2).2 = none ∧
      mapFind (getCacheResponse s k now1 now2).1.cacheMapping k = none ∧
      (∀ k2, k2 ≠ k → mapFind (getCacheResponse s k now1 now2).1.cacheMapping k2
        = mapFind s.cacheMapping k2) ∧
      (getCacheResponse s k now1 now2).1.lruList = listErase s.lruList it.second ∧
      (s.Clean → k ∉ (getCacheResponse s k now1 now2).1.lruKeys)) := by
  constructor
  · intro hlt
    unfold getCacheResponse
    rw [hf]
    simp only []
    rw [if_pos (by simpa [cacheContainer.checkValidity] using hlt)]
  · intro h1 h2
    have hv1 : ¬ it.first.checkValidity now1 = true := by
      simp only [cacheContainer.checkValidity, decide_eq_true_eq]
      omega
    have hv2 : (!it.first.checkValidity now2) = true := by
      simp only [cacheContainer.checkValidity, Bool.not_eq_true', decide_eq_false_iff_not]
      omega
    have hres : getCacheResponse s k now1 now2
        = ({ s with lruList := listErase s.lruList it.second
                    cacheMapping := mapErase s.cacheMapping k }, none) := by
      unfold getCacheResponse
      rw [hf]
      simp only []
      rw [if_neg hv1, if_pos hv2]
    rw [hres]
    refine ⟨rfl, ?_, ?_, rfl, ?_⟩
    · simp only [mapFind_mapErase, if_true]
    · intro k2 hk2
      simp only [mapFind_mapErase, if_neg hk2]
    · intro hc
      simp only [Cache.lruKeys]
      rw [hc.lruKeys_listErase k it hf]
      simp [List.mem_filter]

/-! ## Claims on the message codec -/

/-- C7 (no-cache precedence order), evaluated on three responses. With the `Expires`
line after the `Cache-Control: no-cache` line the response is cacheable. With the order
reversed the response is cacheable as well: the response parser tests the prefix
`Cache-control:`, which the line `Cache-Control: no-cache` does not have, so its no-cache
rule never fires. With the header spelt `Cache-control:` the reversed order gives
non-cacheable. -/
theorem reversed_order_still_cacheable :
    classify ("HTTP/1.1 200 OK\r\nCache-Control: no-cache\r\n"
      ++ "Expires: Thu, 01 Dec 1994 16:00:00 GMT\r\n\r\n").toList = some true ∧
    classify ("HTTP/1.1 200 OK\r\nExpires: Thu, 01 Dec 1994 16:00:00 GMT\r\n"
      ++ "Cache-Control: no-cache\r\n\r\n").toList = some true ∧
    classify ("HTTP/1.1 200 OK\r\nExpires: Thu, 01 Dec 1994 16:00:00 GMT\r\n"
      ++ "Cache-control: no-cache\r\n\r\n").toList = some false := by
  decide

/-! ## Claims on the connection handler -/

/-- C8 (non-numeric max-age), evaluated on `getRequest` answered by `badAgeResponse`:
the origin sends the response in one chunk and closes, the chunk is relayed to the
client, and the caching step calls `parseHttpResponse`, in which `stoi` throws
`invalid_argument`. Nothing in `handleClient` catches it: the handler is left by the
exception, without closing the client socket and without reaching the keep-alive test. -/
theorem non_numeric_max_age_escapes :
    (parseHttpReq getRequest).isCacheable = true ∧
    parseHttpResponse badAgeResponse = .error .invalid_argument ∧
    (handleClient [.received getRequest]
      (World.initial (Cache.empty 300) 0
        [some { sendResult := .sent getRequest.length,
                recvs := [.received badAgeResponse, .received []] }]
        [.sent badAgeResponse.length])).2 = .terminated .invalid_argument ∧
    Event.closeClient ∉ (handleClient [.received getRequest]
      (World.initial (Cache.empty 300) 0
        [some { sendResult := .sent getRequest.length,
                recvs := [.received badAgeResponse, .received []] }]
        [.sent badAgeResponse.length])).1.trace := by
  decide

/-- C10 (partial response), evaluated on `getRequest` twice. First run: the origin
delivers `partialResponse`, the chunk is relayed, and the next `recv` on the origin
fails with `WSAETIMEDOUT` (10060). Second run: the origin delivers `partialResponse`
and the `send` to the client fails. In both runs the relay loop is left before the
origin closed the connection, and the handler nevertheless stores `partialResponse`
under the fingerprint of the request. -/
theorem partial_response_is_cached :
    genCacheKey (parseHttpReq getRequest) = getRequestKey ∧
    (parseHttpReq getRequest).isCacheable = true ∧
    (mapFind (handleClient [.received getRequest]
      (World.initial (Cache.empty 300) 0
        [some { sendResult := .sent getRequest.length,
                recvs := [.received partialResponse, .socketError 10060] }]
        [.sent partialResponse.length])).1.cache.cacheMapping getRequestKey).map
          (fun v => v.first.resp) = some partialResponse ∧
    (mapFind (handleClient [.received getRequest]
      (World.initial (Cache.empty 300) 0
        [some { sendResult := .sent getRequest.length,
                recvs := [.received partialResponse, .received "more".toList] }]
        [.socketError])).1.cache.cacheMapping getRequestKey).map
          (fun v => v.first.resp) = some partialResponse := by
  decide

/-- C9 as stated fails: `getRequest` is valid, cacheable and not a CONNECT; its entry in
`storeWithGetRequest` is 300 seconds old, hence expired; the connector fails. The handler
looks the fingerprint up first, the lookup erases the expired entry, and only then the
connect is attempted; the 502 is sent and the client socket closed, but the store is no
longer the store the request found. -/
theorem gateway_failure_changes_cache :
    genCacheKey (parseHttpReq getRequest) = getRequestKey ∧
    (parseHttpReq getRequest).isValid = true ∧
    (parseHttpReq getRequest).method ≠ "CONNECT".toList ∧
    (handleClient [.received getRequest]
      (World.initial storeWithGetRequest 300000000000 [none] [])).1.trace
        = [.connectTarget "example.com".toList,
           .clientSend "HTTP/1.1 502 Bad gateway \r\n\r\n".toList, .closeClient] ∧
    (handleClient [.received getRequest]
      (World.initial storeWithGetRequest 300000000000 [none] [])).1.cache
        ≠ storeWithGetRequest ∧
    storeWithGetRequest.keys = [getRequestKey] ∧
    (handleClient [.received getRequest]
      (World.initial storeWithGetRequest 300000000000 [none] [])).1.cache.keys = [] := by
  decide

theorem tdiv_mono (a b c : Int) (hc : 0 < c) (h : a ≤ b) : a.tdiv c ≤ b.tdiv c := by
  by_cases ha : 0 ≤ a
  · rw [Int.tdiv_eq_ediv ha (le_of_lt hc), Int.tdiv_eq_ediv (le_trans ha h) (le_of_lt hc)]
    exact Int.ediv_le_ediv hc h
  · have hna : 0 ≤ -a := by omega
    have h1 : a.tdiv c = -((-a).tdiv c) := by rw [Int.neg_tdiv, neg_neg]
    have h2 : 0 ≤ (-a).tdiv c := Int.tdiv_nonneg hna (le_of_lt hc)
    by_cases hb : 0 ≤ b
    · have h3 : 0 ≤ b.tdiv c := Int.tdiv_nonneg hb (le_of_lt hc)
      omega
    · have hnb : 0 ≤ -b := by omega
      have h4 : b.tdiv c = -((-b).tdiv c) := by rw [Int.neg_tdiv, neg_neg]
      have h5 : (-b).tdiv c ≤ (-a).tdiv c := by
        rw [Int.tdiv_eq_ediv hnb (le_of_lt hc), Int.tdiv_eq_ediv hna (le_of_lt hc)]
        exact Int.ediv_le_ediv hc (by omega)
      omega

/-- An entry that is no longer valid at one reading of the steady clock is not valid at
a later reading. -/
theorem checkValidity_later (c : cacheContainer) (now1 now2 : Int) (h : now1 ≤ now2)
    (hv : c.checkValidity now1 = false) : c.checkValidity now2 = false := by
  simp only [cacheContainer.checkValidity, decide_eq_false_iff_not, not_lt] at hv ⊢
  have := tdiv_mono (now1 - c.req_timestamp) (now2 - c.req_timestamp) ticksPerSecond
    (by decide) (by omega)
  exact le_trans hv this

/-- C9, amended (gateway failure). The handler's loop, started on the reads `reads0` in
the world `w0`, has arrived in the world `w` with `reqData` accumulated and next receives
`data`, which completes a valid request that is not a CONNECT; the lookup, if the request
is cacheable, misses, and the connector fails. Then the handler returns, and what it
does on its sockets from there on is: the connect attempt, the send of the 502 response,
the close of the client socket. The store afterwards is the store the lookup left: it
equals the store before the request when the request is not cacheable or the mapping
has no entry for its fingerprint; when the request is cacheable and the mapping has an
entry for its fingerprint (an expired one, since the lookup misses), the store
afterwards is the store before with that entry erased from the mapping and its node
erased from the recency list, provided the second reading of the steady clock is not
earlier than the first; without that proviso the store is either unchanged or so
erased. -/
theorem gateway_failure_frame (reads0 rest : List RecvResult) (w0 w : World)
    (reqData data : CppString)
    (hreach : clientLoop reads0 [] w0 = clientLoop (.received data :: rest) reqData w)
    (hdata : data ≠ [])
    (hterm : contains (reqData ++ data) "\r\n\r\n".toList = true)
    (hmethod : (parseHttpReq (reqData ++ data)).method ≠ "CONNECT".toList)
    (hvalid : (parseHttpReq (reqData ++ data)).isValid = true)
    (hfail : ∀ t, w.connects.head? ≠ some (some t))
    (hmiss : (parseHttpReq (reqData ++ data)).isCacheable = true →
      (getCacheResponse w.cache (genCacheKey (parseHttpReq (reqData ++ data)))
        (w.clock w.clockReads) (w.clock (w.clockReads + 1))).2 = none) :
    (handleClient reads0 w0).2 = .returned ∧
    (handleClient reads0 w0).1.trace
      = w.trace ++ [.connectTarget (parseHttpReq (reqData ++ data)).host,
          .clientSend "HTTP/1.1 502 Bad gateway \r\n\r\n".toList, .closeClient] ∧
    (handleClient reads0 w0).1.cache
      = (if (parseHttpReq (reqData ++ data)).isCacheable = true then
          (getCacheResponse w.cache (genCacheKey (parseHttpReq (reqData ++ data)))
            (w.clock w.clockReads) (w.clock (w.clockReads + 1))).1
        else w.cache) ∧
    (((parseHttpReq (reqData ++ data)).isCacheable = false ∨
        mapFind w.cache.cacheMapping (genCacheKey (parseHttpReq (reqData ++ data))) = none) →
      (handleClient reads0 w0).1.cache = w.cache) ∧
    (∀ it, (parseHttpReq (reqData ++ data)).isCacheable = true →
      mapFind w.cache.cacheMapping (genCacheKey (parseHttpReq (reqData ++ data)))
        = some it →
      w.clock w.clockReads ≤ w.clock (w.clockReads + 1) →
      (handleClient reads0 w0).1.cache
        = { w.cache with
              lruList := listErase w.cache.lruList it.second
              cacheMapping := mapErase w.cache.cacheMapping
                (genCacheKey (parseHttpReq (reqData ++ data))) }) ∧
    (∀ it, mapFind w.cache.cacheMapping (genCacheKey (parseHttpReq (reqData ++ data)))
        = some it →
      (handleClient reads0 w0).1.cache = w.cache ∨
      (handleClient reads0 w0).1.cache
        = { w.cache with
              lruList := listErase w.cache.lruList it.second
              cacheMapping := mapErase w.cache.cacheMapping
                (genCacheKey (parseHttpReq (reqData ++ data))) }) := by
  have hlen : ¬ data.length = 0 := fun h => hdata (List.length_eq_zero.1 h)
  have hfwd : ∀ (w' : World), w'.connects = w.connects →
      forward w' (parseHttpReq (reqData ++ data))
        (genCacheKey (parseHttpReq (reqData ++ data))) (reqData ++ data)
      = (World.sendClient
          { w' with connects := w'.connects.tail,
                    trace := w'.trace ++ [.connectTarget (parseHttpReq (reqData ++ data)).host] }
          "HTTP/1.1 502 Bad gateway \r\n\r\n".toList, .breakLoop) := by
    intro w' hw'
    unfold forward
    rw [hw']
    cases hc : w.connects.head? with
    | none => rfl
    | some o =>
      cases o with
      | none => rfl
      | some t => exact absurd hc (hfail t)
  have hproc : processRequest w (reqData ++ data)
      = (World.sendClient
          { (if (parseHttpReq (reqData ++ data)).isCacheable = true then
              (w.lookup (genCacheKey (parseHttpReq (reqData ++ data)))).1 else w) with
            connects := w.connects.tail,
            trace := w.trace ++ [.connectTarget (parseHttpReq (reqData ++ data)).host] }
          "HTTP/1.1 502 Bad gateway \r\n\r\n".toList, .breakLoop) := by
    unfold processRequest
    simp only []
    rw [if_neg hmethod, hvalid]
    simp only [Bool.not_true, Bool.false_eq_true, if_false]
    by_cases hcache : (parseHttpReq (reqData ++ data)).isCacheable = true
    · have hm := hmiss hcache
      rw [if_pos hcache, if_pos hcache]
      have h2 : (w.lookup (genCacheKey (parseHttpReq (reqData ++ data)))).2 = none := hm
      rw [h2]
      exact hfwd (w.lookup (genCacheKey (parseHttpReq (reqData ++ data)))).1 rfl
    · rw [if_neg hcache, if_neg hcache]
      exact hfwd w rfl
  have hloop : clientLoop (.received data :: rest) reqData w
      = ((processRequest w (reqData ++ data)).1, .returned) := by
    rw [hproc]
    unfold clientLoop
    rw [if_neg hlen, if_pos hterm, hproc]
  have hcache : (handleClient reads0 w0).1.cache
      = (if (parseHttpReq (reqData ++ data)).isCacheable = true then
          (getCacheResponse w.cache (genCacheKey (parseHttpReq (reqData ++ data)))
            (w.clock w.clockReads) (w.clock (w.clockReads + 1))).1
        else w.cache) := by
    unfold handleClient
    rw [hreach, hloop, hproc]
    by_cases hc : (parseHttpReq (reqData ++ data)).isCacheable = true
    · simp only [if_pos hc, World.sendClient, World.lookup]
    · simp only [if_neg hc, World.sendClient]
  refine ⟨?_, ?_, hcache, ?_, ?_, ?_⟩
  · unfold handleClient
    rw [hreach, hloop]
  · unfold handleClient
    rw [hreach, hloop, hproc]
    simp [World.sendClient]
  · intro hor
    rw [hcache]
    by_cases hc : (parseHttpReq (reqData ++ data)).isCacheable = true
    · rcases hor with hf | hnone
      · rw [hf] at hc
        exact absurd hc (by simp)
      · rw [if_pos hc]
        unfold getCacheResponse
        rw [hnone]
    · rw [if_neg hc]
  · intro it hc hit hclock
    rw [hcache, if_pos hc]
    have hm := hmiss hc
    unfold getCacheResponse at hm ⊢
    rw [hit] at hm ⊢
    simp only [] at hm ⊢
    by_cases hv1 : it.first.checkValidity (w.clock w.clockReads) = true
    · rw [if_pos hv1] at hm
      exact absurd hm (by simp)
    · rw [if_neg hv1]
      have hv2 : it.first.checkValidity (w.clock (w.clockReads + 1)) = false :=
        checkValidity_later it.first _ _ hclock (Bool.eq_false_iff.2 hv1)
      rw [hv2]
      rfl
  · intro it hit
    rw [hcache]
    by_cases hc : (parseHttpReq (reqData ++ data)).isCacheable = true
    · rw [if_pos hc]
      have hm := hmiss hc
      unfold getCacheResponse at hm ⊢
      rw [hit] at hm ⊢
      simp only [] at hm ⊢
      by_cases hv1 : it.first.checkValidity (w.clock w.clockReads) = true
      · rw [if_pos hv1] at hm
        exact absurd hm (by simp)
      · rw [if_neg hv1]
        by_cases hv2 : (!it.first.checkValidity (w.clock (w.clockReads + 1))) = true
        · rw [if_pos hv2]
          exact Or.inr rfl
        · rw [if_neg hv2]
          exact Or.inl rfl
    · rw [if_neg hc]
      exact Or.inl rfl

/-- The theorem `gateway_failure_frame` applied to `getRequest` arriving in one read,
with the expired entry of `storeWithGetRequest` and a failing connector: the 502 is
sent and the socket closed, and the store afterwards is `storeWithGetRequest` with the
expired entry erased from the mapping and its node erased from the recency list, so
that both are empty. -/
theorem gateway_failure_frame_witness :
    (handleClient [.received getRequest]
      (World.initial storeWithGetRequest 300000000000 [none] [])).2 = .returned ∧
    (handleClient [.received getRequest]
      (World.initial storeWithGetRequest 300000000000 [none] [])).1.trace
        = [.connectTarget (parseHttpReq getRequest).host,
           .clientSend "HTTP/1.1 502 Bad gateway \r\n\r\n".toList, .closeClient] ∧
    (handleClient [.received getRequest]
      (World.initial storeWithGetRequest 300000000000 [none] [])).1.cache
        = { storeWithGetRequest with lruList := [], cacheMapping := [] } ∧
    storeWithGetRequest.keys = [getRequestKey] ∧
    storeWithGetRequest.lruKeys = [getRequestKey] := by
  have h := gateway_failure_frame [.received getRequest] []
    (World.initial storeWithGetRequest 300000000000 [none] [])
    (World.initial storeWithGetRequest 300000000000 [none] [])
    [] getRequest rfl (by decide) (by decide) (by decide) (by decide)
    (fun t h => by cases h) (by decide)
  have hcache := h.2.2.2.2.1
    { first := { resp := "HTTP/1.1 200 OK\r\n\r\nold".toList, req_timestamp := 0,
                 maxAge := 300 },
      second := 0 }
    (by decide) (by decide) (by decide)
  refine ⟨h.1, h.2.1, ?_, by decide, by decide⟩
  rw [hcache]
  decide

/-! ## Claims on the fingerprint -/

/-- C18 (fingerprint determinism). Two parsed requests with equal method, host and URL
have the same fingerprint, whatever their versions, header lists, bodies and flags. Hence
a lookup under the fingerprint of one behaves, in every store, as a lookup under the
fingerprint of the other; and a response inserted into a fresh store (positive default
TTL) under the fingerprint of one is returned by an immediate lookup under the
fingerprint of the other. -/
theorem fingerprint_determinism (r1 r2 : HttpReq)
    (hmethod : r1.method = r2.method) (hhost : r1.host = r2.host) (hurl : r1.url = r2.url) :
    genCacheKey r1 = genCacheKey r2 ∧
    (∀ (s : Cache) (now1 now2 : Int),
      getCacheResponse s (genCacheKey r2) now1 now2
        = getCacheResponse s (genCacheKey r1) now1 now2) ∧
    (∀ (cacheTime : Int) (response : CppString) (maxAge now : Int), 0 < cacheTime →
      (getCacheResponse
        (cacheResponse (Cache.empty cacheTime) (genCacheKey r1) response maxAge now)
        (genCacheKey r2) now now).2 = some response) := by
  have hkey : genCacheKey r1 = genCacheKey r2 := by
    simp only [genCacheKey, hmethod, hhost, hurl]
  refine ⟨hkey, fun s now1 now2 => by rw [hkey], ?_⟩
  intro cacheTime response maxAge now hpos
  rw [← hkey]
  have hins : cacheResponse (Cache.empty cacheTime) (genCacheKey r1) response maxAge now
      = { lruList := [{ id := 0, key := genCacheKey r1 }]
          cacheMapping := [(genCacheKey r1,
            { first := { resp := response, req_timestamp := now,
                         maxAge := if maxAge > 0 then maxAge else cacheTime },
              second := 0 })]
          defCacheTime := cacheTime
          nextNode := 1 } := by
    rw [cacheResponse_of_le _ _ _ _ _ (by simp [Cache.empty, mapAssign, cacheMaxSize])]
    simp [Cache.empty, mapAssign]
  rw [hins]
  have hvalid : cacheContainer.checkValidity
      { resp := response, req_timestamp := now,
        maxAge := if maxAge > 0 then maxAge else cacheTime } now = true := by
    simp only [cacheContainer.checkValidity, elapsedSeconds, sub_self, Int.zero_tdiv,
      decide_eq_true_eq]
    split <;> omega
  unfold getCacheResponse
  simp only [mapFind, if_true]
  rw [if_pos hvalid]

/-- Two requests that differ in version, headers and body but agree on method, host and
URL satisfy the hypotheses of `fingerprint_determinism`. -/
theorem fingerprint_determinism_witness :
    genCacheKey (parseHttpReq "GET /x HTTP/1.1\r\nHost: h\r\nAccept: a\r\n\r\n".toList)
      = genCacheKey
          (parseHttpReq "GET /x HTTP/1.0\r\nHost: h\r\nCookie: c\r\n\r\nbody".toList) :=
  (fingerprint_determinism
    (parseHttpReq "GET /x HTTP/1.1\r\nHost: h\r\nAccept: a\r\n\r\n".toList)
    (parseHttpReq "GET /x HTTP/1.0\r\nHost: h\r\nCookie: c\r\n\r\nbody".toList)
    (by decide) (by decide) (by decide)).1

/-- C20 (fingerprints are not injective). The requests `requestToACom` (host `a.com`,
URL `/b`) and `requestToACo` (host `a.co`, URL `m/b`) have the same method and different
(host, URL) pairs, and `genCacheKey` gives both the fingerprint `GET:a.com/b`. A response
inserted under the fingerprint of the first is returned by a lookup under the
fingerprint of the second. In the handler: after `requestToACom` has been forwarded and
the answer of `a.com` cached, a handler that receives `requestToACo` sends that answer
and never calls the connector. -/
theorem fingerprint_collision :
    (parseHttpReq requestToACom).method = (parseHttpReq requestToACo).method ∧
    ((parseHttpReq requestToACom).host, (parseHttpReq requestToACom).url)
      ≠ ((parseHttpReq requestToACo).host, (parseHttpReq requestToACo).url) ∧
    genCacheKey (parseHttpReq requestToACom) = "GET:a.com/b".toList ∧
    genCacheKey (parseHttpReq requestToACo) = "GET:a.com/b".toList ∧
    (getCacheResponse
      (cacheResponse (Cache.empty 300) (genCacheKey (parseHttpReq requestToACom))
        answerOfACom 0 0)
      (genCacheKey (parseHttpReq requestToACo)) 0 0).2 = some answerOfACom ∧
    (handleClient [.received requestToACo]
      (World.initial
        (handleClient [.received requestToACom]
          (World.initial (Cache.empty 300) 0
            [some { sendResult := .sent requestToACom.length,
                    recvs := [.received answerOfACom, .received []] }]
            [.sent answerOfACom.length])).1.cache
        0 [] [])).1.trace = [.clientSend answerOfACom, .closeClient] := by
  decide

/-- C16 (declared max-age), evaluated on `getRequest` answered by `maxAge60Response`:
the response is cacheable and declares max-age 60, yet the handler passes to
`cacheResponse` the value of its own uninitialised local `maxAge`. When that value is 0
the entry is stored with the default 300; when it is 7 the entry is stored with max-age
7; in neither run with the declared 60. -/
theorem declared_max_age_not_passed :
    (parseHttpReq getRequest).isCacheable = true ∧
    (parseHttpResponse maxAge60Response).toOption.map (fun r => (r.isCacheable, r.maxAge))
      = some (true, 60) ∧
    storedMaxAge 0 = some 300 ∧
    storedMaxAge 7 = some 7 := by
  decide

/-! ## Claims on the effective max-age -/

theorem mem_mapAssign (m : List (CppString × MapValue)) (key : CppString) (v : MapValue)
    (e : CppString × MapValue) (h : e ∈ mapAssign m key v) : e = (key, v) ∨ e ∈ m := by
  induction m with
  | nil =>
    simp only [mapAssign, List.mem_singleton] at h
    exact Or.inl h
  | cons x rest ih =>
    obtain ⟨k, w⟩ := x
    by_cases hk : k = key
    · subst hk
      simp only [mapAssign, if_true, List.mem_cons] at h
      rcases h with h | h
      · exact Or.inl h
      · exact Or.inr (List.mem_cons_of_mem _ h)
    · simp only [mapAssign, if_neg hk, List.mem_cons] at h
      rcases h with h | h
      · exact Or.inr (by rw [h]; exact List.mem_cons_self _ _)
      · rcases ih h with h2 | h2
        · exact Or.inl h2
        · exact Or.inr (List.mem_cons_of_mem _ h2)

/-- The mapping after `cacheResponse` is the old mapping with the new entry assigned,
possibly with one key erased. -/
theorem cacheResponse_mapping (s : Cache) (k r : CppString) (a now : Int) :
    (cacheResponse s k r a now).cacheMapping
      = mapAssign s.cacheMapping k
          { first := { resp := r, req_timestamp := now,
                       maxAge := if a > 0 then a else s.defCacheTime },
            second := s.nextNode } ∨
    ∃ key, (cacheResponse s k r a now).cacheMapping
      = mapErase (mapAssign s.cacheMapping k
          { first := { resp := r, req_timestamp := now,
                       maxAge := if a > 0 then a else s.defCacheTime },
            second := s.nextNode }) key := by
  by_cases h : (mapAssign s.cacheMapping k
      { first := { resp := r, req_timestamp := now,
                   maxAge := if a > 0 then a else s.defCacheTime },
        second := s.nextNode }).length ≤ cacheMaxSize
  · rw [cacheResponse_of_le s k r a now h]
    exact Or.inl rfl
  · have hgt : cacheMaxSize < (mapAssign s.cacheMapping k
        { first := { resp := r, req_timestamp := now,
                     maxAge := if a > 0 then a else s.defCacheTime },
          second := s.nextNode }).length := by omega
    rcases List.eq_nil_or_concat
        (({ id := s.nextNode, key := k } : LruNode) :: s.lruList) with hnil | ⟨l0, x, hl⟩
    · exact absurd hnil (by simp)
    · rw [List.concat_eq_append] at hl
      have hlast : (({ id := s.nextNode, key := k } : LruNode) :: s.lruList).getLast?
          = some x := by
        rw [hl, List.getLast?_append]
        simp
      right
      refine ⟨x.key, ?_⟩
      unfold cacheResponse
      simp only []
      rw [if_pos hgt, hlast]

/-- The mapping entries of `cacheResponse` are the new entry and old entries. -/
theorem mem_cacheResponse (s : Cache) (k r : CppString) (a now : Int)
    (e : CppString × MapValue) (h : e ∈ (cacheResponse s k r a now).cacheMapping) :
    e = (k, { first := { resp := r, req_timestamp := now,
                         maxAge := if a > 0 then a else s.defCacheTime },
              second := s.nextNode }) ∨ e ∈ s.cacheMapping := by
  rcases cacheResponse_mapping s k r a now with hm | ⟨key, hm⟩
  · rw [hm] at h
    exact mem_mapAssign _ _ _ _ h
  · rw [hm] at h
    exact mem_mapAssign _ _ _ _ (List.mem_filter.1 h).1

theorem mapFind_some_mem (m : List (CppString × MapValue)) (key : CppString) (v : MapValue)
    (h : mapFind m key = some v) : (key, v) ∈ m := by
  induction m with
  | nil => simp [mapFind] at h
  | cons x rest ih =>
    obtain ⟨k0, v0⟩ := x
    by_cases hk : k0 = key
    · simp only [mapFind, if_pos hk, Option.some.injEq] at h
      rw [hk, h]
      exact List.mem_cons_self _ _
    · simp only [mapFind, if_neg hk] at h
      exact List.mem_cons_of_mem _ (ih h)

/-- The mapping entries after `getCacheResponse` carry containers of old entries. -/
theorem mem_getCacheResponse (s : Cache) (k : CppString) (now1 now2 : Int)
    (e : CppString × MapValue) (h : e ∈ (getCacheResponse s k now1 now2).1.cacheMapping) :
    ∃ e0 ∈ s.cacheMapping, e.2.first = e0.2.first := by
  unfold getCacheResponse at h
  cases hf : mapFind s.cacheMapping k with
  | none =>
    rw [hf] at h
    exact ⟨e, h, rfl⟩
  | some it =>
    rw [hf] at h
    simp only [] at h
    have hmem : ∃ e0 ∈ s.cacheMapping, it.first = e0.2.first :=
      ⟨(k, it), mapFind_some_mem _ _ _ hf, rfl⟩
    by_cases hv1 : it.first.checkValidity now1 = true
    · rw [if_pos hv1] at h
      rcases mem_mapAssign _ _ _ _ h with h2 | h2
      · rw [h2]
        exact hmem
      · exact ⟨e, h2, rfl⟩
    · rw [if_neg hv1] at h
      by_cases hv2 : (!it.first.checkValidity now2) = true
      · rw [if_pos hv2] at h
        exact ⟨e, (List.mem_filter.1 h).1, rfl⟩
      · rw [if_neg hv2] at h
        exact ⟨e, h, rfl⟩

theorem defCacheTime_cacheResponse (s : Cache) (k r : CppString) (a now : Int) :
    (cacheResponse s k r a now).defCacheTime = s.defCacheTime := by
  by_cases h : (mapAssign s.cacheMapping k
      { first := { resp := r, req_timestamp := now,
                   maxAge := if a > 0 then a else s.defCacheTime },
        second := s.nextNode }).length ≤ cacheMaxSize
  · rw [cacheResponse_of_le s k r a now h]
  · unfold cacheResponse
    simp only []
    rw [if_pos (by omega)]
    cases ({ id := s.nextNode, key := k } :: s.lruList : List LruNode).getLast? <;> rfl

theorem defCacheTime_getCacheResponse (s : Cache) (k : CppString) (now1 now2 : Int) :
    (getCacheResponse s k now1 now2).1.defCacheTime = s.defCacheTime := by
  unfold getCacheResponse
  cases mapFind s.cacheMapping k with
  | none => rfl
  | some it =>
    by_cases hv1 : it.first.checkValidity now1 = true
    · simp only [if_pos hv1]
    · by_cases hv2 : (!it.first.checkValidity now2) = true
      · simp only [if_neg hv1, if_pos hv2]
      · simp only [if_neg hv1, if_neg hv2]

theorem defCacheTime_apply (s : Cache) (op : CacheOp) :
    (CacheOp.apply s op).defCacheTime = s.defCacheTime := by
  cases op with
  | insert k r a now => exact defCacheTime_cacheResponse s k r a now
  | lookup k n1 n2 => exact defCacheTime_getCacheResponse s k n1 n2

/-- With a positive default TTL every stored max-age stays positive along any run. -/
theorem runOps_maxAge_pos (ops : List CacheOp) :
    ∀ (s : Cache), 0 < s.defCacheTime →
      (∀ e ∈ s.cacheMapping, 0 < e.2.first.maxAge) →
      ∀ e ∈ (runOps s ops).cacheMapping, 0 < e.2.first.maxAge := by
  induction ops with
  | nil => exact fun s _ h => h
  | cons op ops ih =>
    intro s hd hs
    have hrun : runOps s (op :: ops) = runOps (CacheOp.apply s op) ops := rfl
    rw [hrun]
    apply ih
    · rw [defCacheTime_apply]
      exact hd
    · intro e he
      cases op with
      | insert k r a now =>
        rcases mem_cacheResponse s k r a now e he with h | h
        · rw [h]
          simp only
          split <;> omega
        · exact hs e h
      | lookup k n1 n2 =>
        obtain ⟨e0, he0, heq⟩ := mem_getCacheResponse s k n1 n2 e he
        rw [heq]
        exact hs e0 he0

/-- C15 as stated fails: a server constructed with `cacheTime = 0` stores, for a
response that declares no max-age, an entry whose max-age is 0, which is not positive;
with `cacheTime = -5` the stored max-age is -5. -/
theorem max_age_not_positive_for_nonpositive_default :
    (mapFind (cacheResponse (Cache.empty 0) keyA "x".toList 0 0).cacheMapping keyA).map
      (fun v => v.first.maxAge) = some 0 ∧
    (mapFind (cacheResponse (Cache.empty (-5)) keyA "x".toList 0 0).cacheMapping keyA).map
      (fun v => v.first.maxAge) = some (-5) ∧
    ¬ (∀ (cacheTime : Int) (e : CppString × MapValue),
        e ∈ (cacheResponse (Cache.empty cacheTime) keyA "x".toList 0 0).cacheMapping →
        0 < e.2.first.maxAge) := by
  refine ⟨by decide, by decide, ?_⟩
  intro h
  have := h 0 (keyA, { first := { resp := "x".toList, req_timestamp := 0, maxAge := 0 },
                       second := 0 }) (by decide)
  simp at this

/-- C15, amended (effective max-age). In every store and for every declared max-age,
the entry that an insert stores under its key has the declared max-age when that is
positive and the configured default otherwise. When the server is constructed with a
positive default cache time, every entry of every store reachable from the empty store
by inserts and lookups has a positive max-age. -/
theorem effective_max_age (cacheTime : Int) (hpos : 0 < cacheTime) :
    (∀ (s : Cache) (k r : CppString) (a now : Int) (v : MapValue),
      mapFind (cacheResponse s k r a now).cacheMapping k = some v →
      v.first.maxAge = if a > 0 then a else s.defCacheTime) ∧
    (∀ (ops : List CacheOp) (e : CppString × MapValue),
      e ∈ (runOps (Cache.empty cacheTime) ops).cacheMapping → 0 < e.2.first.maxAge) := by
  constructor
  · intro s k r a now v hf
    rcases cacheResponse_mapping s k r a now with hm | ⟨key, hm⟩
    · rw [hm] at hf
      simp only [mapFind_mapAssign, if_true, Option.some.injEq] at hf
      rw [← hf]
    · rw [hm] at hf
      simp only [mapFind_mapErase, mapFind_mapAssign, if_true] at hf
      by_cases hk : k = key
      · rw [if_pos hk] at hf
        exact absurd hf (by simp)
      · rw [if_neg hk] at hf
        simp only [Option.some.injEq] at hf
        rw [← hf]
  · intro ops e he
    exact runOps_maxAge_pos ops (Cache.empty cacheTime) hpos
      (by simp [Cache.empty]) e he

/-- The theorem `effective_max_age` for the default 300 of `main`: in the store reached
by inserts with declared max-ages 0, 60 and -1 and a lookup, every entry has a positive
max-age. -/
theorem effective_max_age_witness :
    (runOps (Cache.empty 300)
        [.insert keyA "x".toList 0 0, .insert keyB "x".toList 60 0,
         .lookup keyA 0 0, .insert keyC "x".toList (-1) 0]).cacheMapping.all
      (fun e => decide (0 < e.2.first.maxAge)) = true :=
  List.all_eq_true.2
    (fun e he => decide_eq_true ((effective_max_age 300 (by decide)).2 _ e he))

/-! ## Claims on the request parser -/

theorem reqHeaderStep_fields (req : HttpReq) (line : CppString) :
    (reqHeaderStep req line).method = req.method ∧
    (reqHeaderStep req line).url = req.url ∧
    (reqHeaderStep req line).version = req.version ∧
    (reqHeaderStep req line).isValid = req.isValid ∧
    (reqHeaderStep req line).headers = req.headers ++ [line] ∧
    (reqHeaderStep req line).isCacheable = (req.isCacheable && !requestsNoCache line) := by
  unfold reqHeaderStep
  simp only []
  have hc : (startsWith line "Cache-Control".toList && contains line "no-cache".toList)
      = requestsNoCache line := rfl
  rw [hc]
  cases requestsNoCache line <;> cases startsWith line "Host:".toList <;> simp

/-- What the header loop of `parseHttpReq` computes: the request line fields are kept,
the lines up to the first blank line are appended to the headers, and the cacheability
flag stays true only if none of them asks for `no-cache`. -/
theorem parseReqHeaders_fields (lines : List CppString) :
    ∀ (req : HttpReq),
      (parseReqHeaders req lines).method = req.method ∧
      (parseReqHeaders req lines).url = req.url ∧
      (parseReqHeaders req lines).version = req.version ∧
      (parseReqHeaders req lines).isValid = req.isValid ∧
      (parseReqHeaders req lines).headers
        = req.headers ++ lines.takeWhile (fun line => !isBlankLine line) ∧
      (parseReqHeaders req lines).isCacheable
        = (req.isCacheable &&
            (lines.takeWhile (fun line => !isBlankLine line)).all
              (fun line => !requestsNoCache line)) := by
  induction lines with
  | nil =>
    intro req
    simp [parseReqHeaders]
  | cons line rest ih =>
    intro req
    by_cases hb : line ≠ ['\r'] ∧ line ≠ []
    · have hnb : isBlankLine line = false := by
        simp [isBlankLine, hb.1, hb.2]
      obtain ⟨h1, h2, h3, h4, h5, h6⟩ := ih (reqHeaderStep req line)
      obtain ⟨g1, g2, g3, g4, g5, g6⟩ := reqHeaderStep_fields req line
      simp only [parseReqHeaders, if_pos hb, h1, h2, h3, h4, h5, h6, g1, g2, g3, g4, g5, g6,
        List.takeWhile_cons, hnb, Bool.not_false, if_true, List.all_cons, List.append_assoc,
        List.singleton_append, Bool.and_assoc, and_self]
    · have hbl : isBlankLine line = true := by
        simp only [isBlankLine, Bool.or_eq_true, decide_eq_true_eq]
        by_contra hc
        exact hb ⟨fun h => hc (Or.inl h), fun h => hc (Or.inr h)⟩
      simp [parseReqHeaders, if_neg hb, List.takeWhile_cons, hbl]

/-- C12 (flags of `parseHttpReq`). For every request byte string: the validity flag is
true iff the parsed method and the parsed URL are both non-empty; the cacheability flag
is true iff the parsed method is `GET` and no header line (a line after the first one and
before the first blank line) begins with `Cache-Control` and contains `no-cache`; the
header list of the parsed request is exactly that list of header lines; and the method
and the URL are the first and the second white-space separated token of the first
line. -/
theorem parse_request_flags (request : CppString) :
    ((parseHttpReq request).isValid = true ↔
      (parseHttpReq request).method ≠ [] ∧ (parseHttpReq request).url ≠ []) ∧
    ((parseHttpReq request).isCacheable = true ↔
      (parseHttpReq request).method = "GET".toList ∧
      ∀ line ∈ headerLines request, ¬ requestsNoCache line = true) ∧
    (parseHttpReq request).headers = headerLines request ∧
    (∀ line rest, splitLines request = line :: rest →
      (parseHttpReq request).method = (extractToken line).1 ∧
      (parseHttpReq request).url = (extractToken (extractToken line).2).1) := by
  unfold parseHttpReq headerLines
  cases hs : splitLines request with
  | nil => simp
  | cons line rest =>
    simp only []
    obtain ⟨h1, h2, h3, h4, h5, h6⟩ := parseReqHeaders_fields rest
      { method := (extractToken line).1, url := (extractToken (extractToken line).2).1,
        version := popCarriageReturn (extractToken (extractToken (extractToken line).2).2).1,
        isValid := !(extractToken line).1.isEmpty
          && !(extractToken (extractToken line).2).1.isEmpty,
        isCacheable := decide ((extractToken line).1 = "GET".toList) }
    rw [h1, h2, h4, h5, h6]
    refine ⟨?_, ?_, ?_, ?_⟩
    · simp [List.isEmpty_iff]
    · simp [List.all_eq_true]
    · simp
    · intro line2 rest2 heq
      simp only [List.cons.injEq] at heq
      rw [← heq.1]
      exact ⟨rfl, rfl⟩

theorem parseHttpReq_cacheable_method (request : CppString)
    (h : (parseHttpReq request).isCacheable = true) :
    (parseHttpReq request).method = "GET".toList := by
  unfold parseHttpReq at h ⊢
  cases hs : splitLines request with
  | nil =>
    rw [hs] at h
    simp at h
  | cons line rest =>
    rw [hs] at h
    simp only [] at h ⊢
    obtain ⟨h1, _, _, _, _, h6⟩ := parseReqHeaders_fields rest
      { method := (extractToken line).1, url := (extractToken (extractToken line).2).1,
        version := popCarriageReturn (extractToken (extractToken (extractToken line).2).2).1,
        isValid := !(extractToken line).1.isEmpty
          && !(extractToken (extractToken line).2).1.isEmpty,
        isCacheable := decide ((extractToken line).1 = "GET".toList) }
    rw [h6] at h
    rw [h1]
    simp only [Bool.and_eq_true, decide_eq_true_eq] at h
    exact h.1

/-! ## Claims on the connection handler, continued -/

theorem keepAliveControl_cases (req : HttpReq) :
    keepAliveControl req = .breakLoop ∨ keepAliveControl req = .continueLoop := by
  unfold keepAliveControl
  simp only []
  split
  · exact Or.inl rfl
  · exact Or.inr rfl

/-- One turn of the client loop on a read that completes the request. -/
theorem clientLoop_complete (data : CppString) (rest : List RecvResult) (reqData : CppString)
    (w : World) (hdata : data ≠ [])
    (hterm : contains (reqData ++ data) "\r\n\r\n".toList = true) :
    clientLoop (.received data :: rest) reqData w
      = (match processRequest w (reqData ++ data) with
        | (w1, .breakLoop) => (w1, .returned)
        | (w1, .continueLoop) => clientLoop rest [] w1
        | (w1, .uncaught e) => (w1, .terminated e)) := by
  have hlen : ¬ data.length = 0 := fun h => hdata (List.length_eq_zero.1 h)
  rw [clientLoop, if_neg hlen, if_pos hterm]

/-- C11 (CONNECT rejection). The handler's loop, started on the reads `reads0` in the
world `w0`, has arrived in the world `w` with `reqData` accumulated and next receives
`data`, which completes a request whose parsed method is `CONNECT` (nothing is assumed
about the rest of the request line). Then the handler returns, and what it does from
there on is exactly: one send of `HTTP/1.1 405 Method Not Allowed` to the client and the
close of the client socket. No connect is attempted (the connector's script is
untouched), and the cache is neither read nor modified (same store, no clock reading
drawn). -/
theorem connect_rejected (reads0 rest : List RecvResult) (w0 w : World)
    (reqData data : CppString)
    (hreach : clientLoop reads0 [] w0 = clientLoop (.received data :: rest) reqData w)
    (hdata : data ≠ [])
    (hterm : contains (reqData ++ data) "\r\n\r\n".toList = true)
    (hmethod : (parseHttpReq (reqData ++ data)).method = "CONNECT".toList) :
    (handleClient reads0 w0).2 = .returned ∧
    (handleClient reads0 w0).1.trace
      = w.trace ++ [.clientSend "HTTP/1.1 405 Method Not Allowed\r\n\r\n".toList,
          .closeClient] ∧
    (handleClient reads0 w0).1.connects = w.connects ∧
    (handleClient reads0 w0).1.cache = w.cache ∧
    (handleClient reads0 w0).1.clockReads = w.clockReads := by
  have hlen : ¬ data.length = 0 := fun h => hdata (List.length_eq_zero.1 h)
  have hproc : processRequest w (reqData ++ data)
      = (w.sendClient "HTTP/1.1 405 Method Not Allowed\r\n\r\n".toList, .breakLoop) := by
    unfold processRequest
    simp only []
    rw [if_pos hmethod]
  have hloop : clientLoop (.received data :: rest) reqData w
      = (w.sendClient "HTTP/1.1 405 Method Not Allowed\r\n\r\n".toList, .returned) := by
    unfold clientLoop
    rw [if_neg hlen, if_pos hterm, hproc]
  unfold handleClient
  rw [hreach, hloop]
  simp [World.sendClient]

/-- The theorem `connect_rejected` applied to a complete CONNECT request and to a
CONNECT request line without URL, each arriving in one read while the store holds an
entry and an origin would be reachable: the 405 is sent, the socket closed, the
connector's script and the store are untouched. -/
theorem connect_rejected_witness :
    ((handleClient [.received connectRequest]
        (World.initial storeWithGetRequest 0
          [some { sendResult := .sent 0, recvs := [] }] [])).1.trace
      = [.clientSend "HTTP/1.1 405 Method Not Allowed\r\n\r\n".toList, .closeClient] ∧
     (handleClient [.received connectRequest]
        (World.initial storeWithGetRequest 0
          [some { sendResult := .sent 0, recvs := [] }] [])).1.cache
      = storeWithGetRequest) ∧
    ((parseHttpReq connectRequestNoUrl).isValid = false ∧
     (handleClient [.received connectRequestNoUrl]
        (World.initial storeWithGetRequest 0
          [some { sendResult := .sent 0, recvs := [] }] [])).1.trace
      = [.clientSend "HTTP/1.1 405 Method Not Allowed\r\n\r\n".toList, .closeClient]) := by
  have h1 := connect_rejected [.received connectRequest] []
    (World.initial storeWithGetRequest 0 [some { sendResult := .sent 0, recvs := [] }] [])
    (World.initial storeWithGetRequest 0 [some { sendResult := .sent 0, recvs := [] }] [])
    [] connectRequest rfl (by decide) (by decide) (by decide)
  have h2 := connect_rejected [.received connectRequestNoUrl] []
    (World.initial storeWithGetRequest 0 [some { sendResult := .sent 0, recvs := [] }] [])
    (World.initial storeWithGetRequest 0 [some { sendResult := .sent 0, recvs := [] }] [])
    [] connectRequestNoUrl rfl (by decide) (by decide) (by decide)
  exact ⟨⟨h1.2.1, h1.2.2.2.1⟩, ⟨by decide, h2.2.1⟩⟩

/-- C14 (cache hit). The handler is in the world `w` with `reqData` accumulated and next
receives `data`, which completes a valid cacheable request; the mapping holds the entry
`it` under the fingerprint of the request, and the entry is valid at the clock reading
of the lookup. Then to answer this request the handler makes exactly one send to the
client, of exactly the stored bytes `it.first.resp`, and no connect: the connector's
script is untouched and no other event is added to the trace. The loop then goes on or
ends as the keep-alive test says. -/
theorem cache_hit_served (w : World) (reqData data : CppString) (rest : List RecvResult)
    (it : MapValue)
    (hdata : data ≠ [])
    (hterm : contains (reqData ++ data) "\r\n\r\n".toList = true)
    (hvalid : (parseHttpReq (reqData ++ data)).isValid = true)
    (hcacheable : (parseHttpReq (reqData ++ data)).isCacheable = true)
    (hfind : mapFind w.cache.cacheMapping (genCacheKey (parseHttpReq (reqData ++ data)))
      = some it)
    (hfresh : it.first.checkValidity (w.clock w.clockReads) = true) :
    (processRequest w (reqData ++ data)).1.trace
      = w.trace ++ [.clientSend it.first.resp] ∧
    (processRequest w (reqData ++ data)).1.connects = w.connects ∧
    (processRequest w (reqData ++ data)).2 = keepAliveControl (parseHttpReq (reqData ++ data)) ∧
    clientLoop (.received data :: rest) reqData w
      = (if keepAliveControl (parseHttpReq (reqData ++ data)) = .continueLoop then
          clientLoop rest [] (processRequest w (reqData ++ data)).1
        else ((processRequest w (reqData ++ data)).1, .returned)) := by
  have hlen : ¬ data.length = 0 := fun h => hdata (List.length_eq_zero.1 h)
  have hmethod : (parseHttpReq (reqData ++ data)).method ≠ "CONNECT".toList := by
    rw [parseHttpReq_cacheable_method _ hcacheable]
    decide
  have hlook : w.lookup (genCacheKey (parseHttpReq (reqData ++ data)))
      = ({ w with
            cache := (getCacheResponse w.cache (genCacheKey (parseHttpReq (reqData ++ data)))
              (w.clock w.clockReads) (w.clock (w.clockReads + 1))).1
            clockReads := w.clockReads + 2 }, some it.first.resp) := by
    unfold World.lookup
    simp only []
    have : (getCacheResponse w.cache (genCacheKey (parseHttpReq (reqData ++ data)))
        (w.clock w.clockReads) (w.clock (w.clockReads + 1))).2 = some it.first.resp := by
      unfold getCacheResponse
      rw [hfind]
      simp only []
      rw [if_pos hfresh]
    rw [this]
  have hproc : processRequest w (reqData ++ data)
      = (World.sendClient
          { w with
            cache := (getCacheResponse w.cache (genCacheKey (parseHttpReq (reqData ++ data)))
              (w.clock w.clockReads) (w.clock (w.clockReads + 1))).1
            clockReads := w.clockReads + 2 } it.first.resp,
         keepAliveControl (parseHttpReq (reqData ++ data))) := by
    unfold processRequest
    simp only []
    rw [if_neg hmethod, hvalid]
    simp only [Bool.not_true, Bool.false_eq_true, if_false]
    rw [if_pos hcacheable, hlook]
  refine ⟨?_, ?_, ?_, ?_⟩
  · rw [hproc]
    rfl
  · rw [hproc]
    rfl
  · rw [hproc]
  · rw [clientLoop_complete data rest reqData w hdata hterm, hproc]
    rcases keepAliveControl_cases (parseHttpReq (reqData ++ data)) with hk | hk
    · rw [hk]
      rfl
    · rw [hk]
      rfl

/-- The theorem `cache_hit_served` applied to `getRequest` arriving in one read while
`storeWithGetRequest` holds a valid entry for it: the stored bytes are sent, nothing
else happens for the request, and (no keep-alive header) the socket is closed. -/
theorem cache_hit_served_witness :
    (processRequest (World.initial storeWithGetRequest 0 [none] []) getRequest).1.trace
      = [.clientSend "HTTP/1.1 200 OK\r\n\r\nold".toList] ∧
    (handleClient [.received getRequest]
      (World.initial storeWithGetRequest 0 [none] [])).1.trace
      = [.clientSend "HTTP/1.1 200 OK\r\n\r\nold".toList, .closeClient] := by
  have h := cache_hit_served (World.initial storeWithGetRequest 0 [none] []) [] getRequest []
    { first := { resp := "HTTP/1.1 200 OK\r\n\r\nold".toList, req_timestamp := 0,
                 maxAge := 300 },
      second := 0 }
    (by decide) (by decide) (by decide) (by decide) (by decide) (by decide)
  exact ⟨h.1, by decide⟩

/-! ## Claims on the response parser -/

theorem respHeaderStep_ok (resp resp2 : HttpResp) (line : CppString)
    (h : respHeaderStep resp line = .ok resp2) :
    resp2.isCacheable = flagStep resp.isCacheable line ∧
    resp2.headers = resp.headers ++ [line] ∧
    resp2.statusLine = resp.statusLine := by
  unfold respHeaderStep at h
  simp only [] at h
  have hf : (startsWith line "Cache-control:".toList
      && (contains line "no-cache".toList || contains line "no-store".toList))
      = forbidsStorage line := rfl
  have he : startsWith line "Expires:".toList = isExpiresLine line := rfl
  rw [hf, he] at h
  unfold flagStep
  cases hfind : find line "max-age=".toList with
  | none =>
    rw [hfind] at h
    simp only [] at h
    cases hE : isExpiresLine line <;> cases hF : forbidsStorage line <;>
      simp [hE, hF] at h <;> subst h <;> simp
  | some idx =>
    rw [hfind] at h
    simp only [] at h
    cases hs : stoi (match find (List.drop (idx + 8) line) [','] with
        | some commaIdx => List.take commaIdx (List.drop (idx + 8) line)
        | none => List.drop (idx + 8) line) with
    | error e =>
      rw [hs] at h
      simp at h
    | ok n =>
      rw [hs] at h
      simp only [] at h
      cases hE : isExpiresLine line <;> cases hF : forbidsStorage line <;>
        simp [hE, hF] at h <;> subst h <;> simp

/-- What the header loop of `parseHttpResponse` computes when it does not fail: the lines
up to the first blank line are appended to the headers, and the cacheability flag is
folded over them in order. -/
theorem parseRespHeaders_ok (lines : List CppString) :
    ∀ (resp resp2 : HttpResp), parseRespHeaders resp lines = .ok resp2 →
      resp2.headers = resp.headers ++ lines.takeWhile (fun line => !isBlankLine line) ∧
      resp2.isCacheable
        = (lines.takeWhile (fun line => !isBlankLine line)).foldl flagStep resp.isCacheable ∧
      resp2.statusLine = resp.statusLine := by
  induction lines with
  | nil =>
    intro resp resp2 h
    simp only [parseRespHeaders, Except.ok.injEq] at h
    subst h
    simp
  | cons line rest ih =>
    intro resp resp2 h
    by_cases hb : line ≠ ['\r'] ∧ line ≠ []
    · have hnb : isBlankLine line = false := by
        simp [isBlankLine, hb.1, hb.2]
      simp only [parseRespHeaders, if_pos hb] at h
      cases hstep : respHeaderStep resp line with
      | error e =>
        rw [hstep] at h
        simp at h
      | ok resp1 =>
        rw [hstep] at h
        simp only [] at h
        obtain ⟨g1, g2, g3⟩ := respHeaderStep_ok resp resp1 line hstep
        obtain ⟨h1, h2, h3⟩ := ih resp1 resp2 h
        rw [h1, h2, h3, g1, g2, g3]
        simp [List.takeWhile_cons, hnb]
    · have hbl : isBlankLine line = true := by
        simp only [isBlankLine, Bool.or_eq_true, decide_eq_true_eq]
        by_contra hc
        exact hb ⟨fun h => hc (Or.inl h), fun h => hc (Or.inr h)⟩
      simp only [parseRespHeaders, if_neg hb, Except.ok.injEq] at h
      subst h
      simp [List.takeWhile_cons, hbl]

/-- The flag folded over the header lines is true exactly when either it started true and
no line forbids storage, or some `Expires:` line has no forbidding line after it. -/
theorem foldl_flagStep_iff (lines : List CppString) :
    ∀ (flag : Bool), lines.foldl flagStep flag = true ↔
      (flag = true ∧ ∀ line ∈ lines, forbidsStorage line = false) ∨
      (∃ pre line post, lines = pre ++ line :: post ∧ isExpiresLine line = true ∧
        ∀ m ∈ post, forbidsStorage m = false) := by
  induction lines with
  | nil =>
    intro flag
    simp
  | cons l rest ih =>
    intro flag
    rw [List.foldl_cons, ih]
    constructor
    · rintro (⟨hstep, hrest⟩ | ⟨pre, line, post, heq, hexp, hpost⟩)
      · by_cases hE : isExpiresLine l = true
        · exact Or.inr ⟨[], l, rest, rfl, hE, hrest⟩
        · left
          simp only [flagStep, hE, Bool.false_eq_true, if_false] at hstep
          by_cases hF : forbidsStorage l = true
          · simp [hF] at hstep
          · simp only [hF, Bool.false_eq_true, if_false] at hstep
            refine ⟨hstep, ?_⟩
            intro m hm
            simp only [List.mem_cons] at hm
            rcases hm with rfl | hm
            · simpa using hF
            · exact hrest m hm
      · exact Or.inr ⟨l :: pre, line, post, by rw [heq]; rfl, hexp, hpost⟩
    · rintro (⟨hflag, hall⟩ | ⟨pre, line, post, heq, hexp, hpost⟩)
      · left
        have hl := hall l (List.mem_cons_self _ _)
        refine ⟨?_, fun m hm => hall m (List.mem_cons_of_mem _ hm)⟩
        simp [flagStep, hl, hflag]
      · cases pre with
        | nil =>
          simp only [List.nil_append, List.cons.injEq] at heq
          left
          rw [heq.1, heq.2]
          exact ⟨by simp [flagStep, hexp], hpost⟩
        | cons p pre =>
          simp only [List.cons_append, List.cons.injEq] at heq
          exact Or.inr ⟨pre, line, post, heq.2, hexp, hpost⟩

/-- C17 as stated fails: `expiresThenNoCache` is accepted by `parseHttpResponse` and has
a header line that begins with `Expires:`, yet its cacheability flag is false, because
the `Cache-control: no-cache` line comes after the `Expires:` line; with the two lines
in the other order (`noCacheThenExpires`) the flag is true. -/
theorem expires_overridden_by_later_no_cache :
    classify expiresThenNoCache = some false ∧
    (headerLines expiresThenNoCache).any isExpiresLine = true ∧
    classify noCacheThenExpires = some true ∧
    (headerLines noCacheThenExpires).Perm (headerLines expiresThenNoCache) := by
  decide

/-- The fields of an accepted response: the header list is the list of header lines of
the response, the status line is its first line, and the flag is as the header loop
leaves it. -/
theorem parseHttpResponse_ok_fields (response : CppString) (resp : HttpResp)
    (h : parseHttpResponse response = .ok resp) :
    resp.headers = headerLines response ∧
    resp.statusLine = firstLine response ∧
    (resp.isCacheable = true ↔
      (contains (popCarriageReturn resp.statusLine) "200 OK".toList = true ∧
        ∀ line ∈ resp.headers, forbidsStorage line = false) ∨
      (∃ pre line post, resp.headers = pre ++ line :: post ∧ isExpiresLine line = true ∧
        ∀ m ∈ post, forbidsStorage m = false)) := by
  unfold parseHttpResponse at h
  unfold headerLines firstLine
  cases hs : splitLines response with
  | nil =>
    rw [hs] at h
    simp only [Except.ok.injEq] at h
    subst h
    simp only [List.tail_nil, List.takeWhile_nil, List.headD_nil, true_and]
    constructor
    · intro hc
      simp at hc
    · rintro (⟨hc, _⟩ | ⟨pre, line, post, heq, _, _⟩)
      · exact absurd hc (by decide)
      · simp at heq
  | cons line rest =>
    rw [hs] at h
    simp only [] at h
    by_cases hempty : line = []
    · rw [if_pos hempty] at h
      simp at h
    · rw [if_neg hempty] at h
      cases hp : parseRespHeaders
          { statusLine := line,
            isCacheable := contains (if line.getLast? = some '\r' then line.dropLast else line)
              "200 OK".toList } rest with
      | error e =>
        rw [hp] at h
        simp at h
      | ok resp1 =>
        rw [hp] at h
        simp only [Except.ok.injEq] at h
        obtain ⟨h1, h2, h3⟩ := parseRespHeaders_ok rest _ resp1 hp
        subst h
        simp only [List.tail_cons, List.headD_cons]
        simp only [List.nil_append] at h1
        refine ⟨h1, h3, ?_⟩
        rw [h2, h3, h1, foldl_flagStep_iff]
        rfl

/-- C17, amended (response cacheability). For every response that `parseHttpResponse`
accepts: the status line of the result is the first line of the response and the header
list of the result is the list of header lines of the response (the lines after the
first, up to the first blank line); and the cacheability flag is true iff either the
first line of the response (without its trailing carriage return) contains `200 OK` and
no header line is a `Cache-control:` line containing `no-cache` or `no-store`, or some
header line begins with `Expires:` and no such `Cache-control:` line comes after it.
The equivalence is stated twice, over the fields of the result and over the lines of
the response itself. -/
theorem response_cacheability (response : CppString) (resp : HttpResp)
    (h : parseHttpResponse response = .ok resp) :
    resp.headers = headerLines response ∧
    (resp.isCacheable = true ↔
      (contains (popCarriageReturn resp.statusLine) "200 OK".toList = true ∧
        ∀ line ∈ resp.headers, forbidsStorage line = false) ∨
      (∃ pre line post, resp.headers = pre ++ line :: post ∧ isExpiresLine line = true ∧
        ∀ m ∈ post, forbidsStorage m = false)) ∧
    resp.statusLine = firstLine response ∧
    (resp.isCacheable = true ↔
      (contains (popCarriageReturn (firstLine response)) "200 OK".toList = true ∧
        ∀ line ∈ headerLines response, forbidsStorage line = false) ∨
      (∃ pre line post, headerLines response = pre ++ line :: post ∧
        isExpiresLine line = true ∧ ∀ m ∈ post, forbidsStorage m = false)) := by
  obtain ⟨h1, h2, h3⟩ := parseHttpResponse_ok_fields response resp h
  refine ⟨h1, h3, h2, ?_⟩
  rw [← h1, ← h2]
  exact h3

/-- The theorem `response_cacheability` applied to three responses. `plainOkResponse`
(first line `HTTP/1.1 200 OK`, no forbidding header) is accepted with the flag true;
`notFoundResponse` (first line `HTTP/1.1 404 Not Found`, no `Expires:` line) is accepted
with the flag false; the flag of `noCacheThenExpires` is true, and since one of its
header lines forbids storage, it is owed to an `Expires:` line with no forbidding line
after it. -/
theorem response_cacheability_witness :
    (∃ resp, parseHttpResponse plainOkResponse = .ok resp ∧ resp.isCacheable = true ∧
      resp.statusLine = "HTTP/1.1 200 OK\r".toList) ∧
    (∃ resp, parseHttpResponse notFoundResponse = .ok resp ∧ resp.isCacheable = false ∧
      resp.statusLine = "HTTP/1.1 404 Not Found\r".toList) ∧
    (∃ pre line post,
      headerLines noCacheThenExpires = pre ++ line :: post ∧ isExpiresLine line = true ∧
        ∀ m ∈ post, forbidsStorage m = false) := by
  refine ⟨?_, ?_, ?_⟩
  · obtain ⟨resp, hresp⟩ : ∃ resp, parseHttpResponse plainOkResponse = .ok resp := ⟨_, rfl⟩
    have h := response_cacheability plainOkResponse resp hresp
    refine ⟨resp, hresp, h.2.2.2.2 (Or.inl ⟨by decide, by decide⟩), ?_⟩
    rw [h.2.2.1]
    decide
  · obtain ⟨resp, hresp⟩ : ∃ resp, parseHttpResponse notFoundResponse = .ok resp := ⟨_, rfl⟩
    have h := response_cacheability notFoundResponse resp hresp
    refine ⟨resp, hresp, ?_, ?_⟩
    · cases hflag : resp.isCacheable with
      | false => rfl
      | true =>
        rcases h.2.2.2.1 hflag with ⟨hc, _⟩ | ⟨pre, line, post, heq, hexp, _⟩
        · exact absurd hc (by decide)
        · have hmem : line ∈ headerLines notFoundResponse := by
            rw [heq]
            simp
          have hall : ∀ l ∈ headerLines notFoundResponse, isExpiresLine l = false := by
            decide
          rw [hall line hmem] at hexp
          exact absurd hexp (by decide)
    · rw [h.2.2.1]
      decide
  · obtain ⟨resp, hresp, hflag⟩ :
        ∃ resp, parseHttpResponse noCacheThenExpires = .ok resp ∧ resp.isCacheable = true :=
      ⟨_, rfl, by decide⟩
    have h := response_cacheability noCacheThenExpires resp hresp
    rcases h.2.2.2.1 hflag with ⟨_, hall⟩ | hex
    · exact absurd hall (by decide)
    · exact hex

/-! ## Claims on the keep-alive loop -/

/-- What the caching step passes to `cacheResponse` for a cacheable response: the value
of the uninitialised local when the response declares a positive max-age, the default
cache time otherwise. -/
theorem cacheStep_insert (w : World) (req : HttpReq) (cacheKey fullResp : CppString)
    (resp : HttpResp) (hreq : req.isCacheable = true) (hfull : fullResp ≠ [])
    (hparse : parseHttpResponse fullResp = .ok resp) (hresp : resp.isCacheable = true) :
    (cacheStep w req cacheKey fullResp).1
      = w.insert cacheKey fullResp
          (if resp.maxAge > 0 then w.indeterminate else w.cache.defCacheTime) := by
  unfold cacheStep
  have hne : fullResp.isEmpty = false := by
    cases fullResp with
    | nil => exact absurd rfl hfull
    | cons c cs => rfl
  rw [hreq, hne, hparse]
  simp only [Bool.not_false, Bool.and_self, if_true]
  rw [if_pos hresp]

/-! ## Claims on the first line of a response -/

theorem stoi_ne_back (s : CppString) : stoi s ≠ .error .backOfEmptyString := by
  intro h
  unfold stoi at h
  simp only [] at h
  split_ifs at h <;> cases h

theorem respHeaderStep_ne_back (resp : HttpResp) (line : CppString) :
    respHeaderStep resp line ≠ .error .backOfEmptyString := by
  unfold respHeaderStep
  simp only []
  cases find line "max-age=".toList with
  | none =>
    simp only []
    split <;> simp
  | some idx =>
    simp only []
    cases hs : stoi (match find (List.drop (idx + 8) line) [','] with
        | some commaIdx => List.take commaIdx (List.drop (idx + 8) line)
        | none => List.drop (idx + 8) line) with
    | error e =>
      simp only []
      intro h
      simp only [Except.error.injEq] at h
      rw [h] at hs
      exact stoi_ne_back _ hs
    | ok n =>
      simp only []
      split <;> simp

theorem parseRespHeaders_ne_back (lines : List CppString) :
    ∀ (resp : HttpResp), parseRespHeaders resp lines ≠ .error .backOfEmptyString := by
  induction lines with
  | nil =>
    intro resp
    simp [parseRespHeaders]
  | cons line rest ih =>
    intro resp
    by_cases hb : line ≠ ['\r'] ∧ line ≠ []
    · simp only [parseRespHeaders, if_pos hb]
      cases hstep : respHeaderStep resp line with
      | error e =>
        simp only []
        intro h
        simp only [Except.error.injEq] at h
        rw [h] at hstep
        exact respHeaderStep_ne_back _ _ hstep
      | ok resp1 =>
        simp only []
        exact ih resp1
    · simp [parseRespHeaders, if_neg hb]

/-- The first line that `getline` delivers is empty exactly when the string begins with a
line feed. -/
theorem splitLines_head_empty (response : CppString) :
    (splitLines response).head? = some [] ↔ response.head? = some '\n' := by
  cases response with
  | nil => simp [splitLines]
  | cons c cs =>
    by_cases hc : c = '\n'
    · simp [splitLines, hc]
    · simp only [splitLines, if_neg hc, List.head?_cons, Option.some.injEq]
      cases splitLines cs <;> simp [hc]

/-- Where the `line.back()` access of `parseHttpResponse` meets an empty string: exactly
on the responses that begin with a line feed. On every other response, the empty one
included, the access is not made on an empty first line. -/
theorem parseHttpResponse_back_iff (response : CppString) :
    parseHttpResponse response = .error .backOfEmptyString ↔
      response.head? = some '\n' := by
  rw [← splitLines_head_empty]
  unfold parseHttpResponse
  cases hs : splitLines response with
  | nil => simp
  | cons line rest =>
    simp only [List.head?_cons, Option.some.injEq]
    by_cases hempty : line = []
    · simp [hempty]
    · rw [if_neg hempty]
      have hne := parseRespHeaders_ne_back rest
        { statusLine := line,
          isCacheable := contains (if line.getLast? = some '\r' then line.dropLast else line)
            "200 OK".toList }
      constructor
      · intro h
        exfalso
        apply hne
        revert h
        cases parseRespHeaders
          { statusLine := line,
            isCacheable := contains (if line.getLast? = some '\r' then line.dropLast else line)
              "200 OK".toList } rest with
        | error e =>
          intro h
          simp only [Except.error.injEq] at h
          rw [h]
        | ok r =>
          intro h
          simp at h
      · intro h
        exact absurd h hempty

/-- C21 (last character of an empty status line), evaluated on `newlineFirstResponse`,
a non-empty response that begins with a line feed: the first `getline` succeeds with an
empty line and `parseHttpResponse` evaluates `line.back()` on it. The handler passes
this response to `parseHttpResponse` when the origin sends it in answer to the
cacheable `getRequest`. The request parser guards its two `back()` calls with an
emptiness test (`popCarriageReturn` leaves the empty string alone). -/
theorem back_read_on_empty_status_line :
    newlineFirstResponse ≠ [] ∧
    (splitLines newlineFirstResponse).head? = some [] ∧
    parseHttpResponse newlineFirstResponse = .error .backOfEmptyString ∧
    (handleClient [.received getRequest]
      (World.initial (Cache.empty 300) 0
        [some { sendResult := .sent getRequest.length,
                recvs := [.received newlineFirstResponse, .received []] }]
        [.sent newlineFirstResponse.length])).2 = .terminated .backOfEmptyString ∧
    popCarriageReturn [] = [] := by
  decide

/-! ## Claims on concurrent access -/

/-- C19 (atomicity under concurrent access), evaluated on two handlers whose cache calls
are run one whole call at a time, as the mutex makes them. `raceOnA` is an interleaving
of `handlerOneCalls` and `handlerTwoCalls` in which both handlers miss on `A` and both
insert it. After the schedule the recency list holds the key `A`, as its last node,
while the mapping has no entry for `A`. The next insert (of `F`, by either handler)
reads that key with `lruList.back()`, erases nothing from the mapping, and leaves five
entries. -/
theorem locked_calls_observe_stale_key :
    isInterleaving handlerOneCalls handlerTwoCalls raceOnA = true ∧
    keyA ∈ (runOps (Cache.empty 300) raceOnA).lruKeys ∧
    mapFind (runOps (Cache.empty 300) raceOnA).cacheMapping keyA = none ∧
    (runOps (Cache.empty 300) raceOnA).lruList.getLast?.map LruNode.key = some keyA ∧
    (cacheResponse (runOps (Cache.empty 300) raceOnA) keyF "x".toList 0 0).keys
      = [keyB, keyC, keyD, keyE, keyF] := by
  decide

end ProxyServer
